import Mathlib

/-
Shallow embedding of the conditional-logic core of the tally-mcp-server
repository (src/src/index.ts): the validators `validateFormLogicFlow` and
`validateMultipleChoiceLogic`, and the constructors
`createConditionalLogicBlock` and `createDynamicQuestionSets`.

Modelling conventions:
- JavaScript strings that may be absent become `Option String`; JavaScript
  truthiness of such a field (`if (x)`) is the predicate `truthy` below
  (absent and the empty string are falsy).
- JavaScript `Map.set` on duplicate keys silently overwrites; `lookupBlock`
  reproduces this by keeping the last block with a given uuid.
- The recursive traversals of the source (`traverseBlocks`, `checkCircular`)
  are embedded with an explicit fuel argument.  The fuel supplied by the
  top-level wrappers is provably sufficient: every productive call adds a
  fresh node drawn from a finite universe (block uuids, resp. the root plus
  all conditional jump targets), so a call chain can never exhaust a fuel
  larger than that universe.
- The generated identifiers of the source (`Date.now()` plus a random
  suffix) are passed in as an explicit `uuid`/`baseUuid` argument, so the
  nondeterministic generator becomes an input of the embedding.
-/

namespace Tally

/-- JavaScript truthiness of an optional string: `undefined` and `""` are falsy. -/
def truthy : Option String → Bool
  | none => false
  | some s => s != ""

/-- How JavaScript renders a possibly-absent string inside a template literal. -/
def jsShow : Option String → String
  | none => "undefined"
  | some s => s

/-- JavaScript `Array.includes` applied to a possibly-absent string. -/
def listIncludes (l : List String) : Option String → Bool
  | none => false
  | some s => l.contains s

/-- A condition as it is stored in a logic block's payload
(`field` / `operator` / `value` / `jumpTo`). -/
structure LogicCond where
  field : Option String := none
  operator : Option String := none
  value : Option String := none
  jumpTo : Option String := none
deriving DecidableEq

/-- An option of a choice question (`uuid` / `text` / `value`). -/
structure ChoiceOpt where
  uuid : Option String := none
  text : Option String := none
  value : Option String := none
deriving DecidableEq

/-- Provenance metadata attached by `createDynamicQuestionSets` to a variant. -/
structure DynamicContext where
  baseQuestion : String
  triggerField : String
  triggerValue : String
  variantIndex : Nat
deriving DecidableEq

/-- Provenance metadata attached by `createDynamicQuestionSets` to a routing block. -/
structure QuestionContext where
  baseQuestion : String
  variant : Nat
deriving DecidableEq

/-- The payload of a block; JavaScript objects are open, so every field the
core ever reads or writes is optional here. -/
structure Payload where
  label : Option String := none
  required : Option Bool := none
  triggerField : Option String := none
  conditions : Option (List LogicCond) := none
  defaultJumpTo : Option String := none
  logicType : Option String := none
  maxSelections : Option Int := none
  options : Option (List ChoiceOpt) := none
  dynamicContext : Option DynamicContext := none
  questionContext : Option QuestionContext := none
deriving DecidableEq

/-- A form block (`uuid` / `type` / `payload`). -/
structure Block where
  uuid : String
  type : String
  payload : Payload := {}
deriving DecidableEq

/-! ## createConditionalLogicBlock -/

/-- A condition as supplied to `create_conditional_logic_block` and
`validate_multiple_choice_logic` (`operator` / `value` / `targetBlock`). -/
structure CondInput where
  operator : Option String := none
  value : Option String := none
  targetBlock : Option String := none
deriving DecidableEq

/-- The operators for which `value` is not required (`noValueOperators`). -/
def noValueOperators : List String := ["is_empty", "is_not_empty"]

/-- The validation the source performs on one condition of
`createConditionalLogicBlock`: the error message thrown, if any. -/
def condInputError (c : CondInput) : Option String :=
  if !(truthy c.operator && truthy c.targetBlock) then
    some "Each condition must have an operator and targetBlock"
  else if !(listIncludes noValueOperators c.operator) && !(truthy c.value) then
    some ("Value is required for operator \x27" ++ jsShow c.operator ++ "\x27")
  else none

/-- The first error raised by the validation loop of
`createConditionalLogicBlock`, scanning conditions in order. -/
def firstCondError : List CondInput → Option String
  | [] => none
  | c :: rest =>
    match condInputError c with
    | some e => some e
    | none => firstCondError rest

/-- Embedding of `createConditionalLogicBlock`.  The generated identifier
(`logic-${Date.now()}-${random}` in the source) is the explicit `uuid`
argument. -/
def createConditionalLogicBlock (uuid : String) (triggerField : String)
    (conditions : List CondInput) (defaultTarget : Option String)
    (logicType : Option String) : Except String Block :=
  match firstCondError conditions with
  | some e => .error e
  | none => .ok
      { uuid := uuid
        type := "LOGIC_JUMP"
        payload :=
          { triggerField := some triggerField
            conditions := some (conditions.map fun c =>
              { field := some triggerField
                operator := c.operator
                value := c.value
                jumpTo := c.targetBlock })
            defaultJumpTo := if truthy defaultTarget then defaultTarget else none
            logicType := some (match logicType with
              | some s => if s = "" then "simple_branch" else s
              | none => "simple_branch") } }

/-! ## validateMultipleChoiceLogic -/

/-- An element of the `conditionalLogic` argument of
`validate_multiple_choice_logic`: an object carrying (or missing) a
`conditions` array. -/
structure McLogicBlock where
  conditions : Option (List CondInput) := none
deriving DecidableEq

/-- `isMultipleChoice` classification of the trigger question. -/
def isMultipleChoice (tq : Block) : Bool :=
  ["INPUT_MULTIPLE_CHOICE", "INPUT_CHECKBOXES"].contains tq.type

/-- `allowsMultipleSelections` classification of the trigger question. -/
def allowsMultipleSelections (tq : Block) : Bool :=
  tq.type == "INPUT_CHECKBOXES" ||
    (tq.type == "INPUT_MULTIPLE_CHOICE" &&
      (match tq.payload.maxSelections with
       | some n => decide (1 < n)
       | none => false))

/-- `singleValueOperators` of the source. -/
def singleValueOperators : List String := ["equals", "not_equals"]

/-- The displayed values of the trigger question's declared options
(`opt.value || opt.text`), when an options array is present. -/
def optionValuesOf (tq : Block) : Option (List (Option String)) :=
  match tq.payload.options with
  | some opts => some (opts.map fun o => if truthy o.value then o.value else o.text)
  | none => none

/-- How `Array.join` renders one possibly-absent option value
(`undefined` joins as the empty string). -/
def joinShow : Option String → String
  | none => ""
  | some s => s

def mcCriticalMsg (i j : Nat) : String :=
  "🚨 CRITICAL ERROR - Logic block " ++ toString (i + 1) ++ ", condition " ++
    toString (j + 1) ++
    ": Using \"equals\" operator with multiple choice question that allows multiple selections. This will fail when users select multiple options. Use \"contains\" instead."

def mcIncompatMsg (i j : Nat) (op : String) : String :=
  "Logic block " ++ toString (i + 1) ++ ", condition " ++ toString (j + 1) ++
    ": Operator \"" ++ op ++
    "\" is incompatible with multiple selection questions. Use \"contains\" or \"not_contains\"."

def mcMissingValueMsg (i j : Nat) (op : Option String) : String :=
  "Logic block " ++ toString (i + 1) ++ ", condition " ++ toString (j + 1) ++
    ": Missing value for operator \"" ++ jsShow op ++ "\""

def mcMissingTargetMsg (i j : Nat) : String :=
  "Logic block " ++ toString (i + 1) ++ ", condition " ++ toString (j + 1) ++
    ": Missing targetBlock"

def mcSingleSelectWarn (i j : Nat) : String :=
  "Logic block " ++ toString (i + 1) ++ ", condition " ++ toString (j + 1) ++
    ": Using \"equals\" with single-select multiple choice. Consider \"contains\" for consistency and future-proofing."

def mcMismatchWarn (i j : Nat) (v : String) (vals : List (Option String)) : String :=
  "Logic block " ++ toString (i + 1) ++ ", condition " ++ toString (j + 1) ++
    ": Value \"" ++ v ++ "\" does not match any available options: [" ++
    String.intercalate ", " (vals.map joinShow) ++ "]"

def mcMissingCondsMsg (i : Nat) : String :=
  "Logic block " ++ toString (i + 1) ++ " is missing conditions array"

def mcTypeWarn (tq : Block) : String :=
  "Question type " ++ tq.type ++
    " is not a multiple choice question. This validation is intended for multiple choice questions."

/-- The ISSUEs contributed by one condition of `validateMultipleChoiceLogic`
(block index `i`, condition index `j`), in source order. -/
def mcCondIssues (tq : Block) (i j : Nat) (c : CondInput) : List String :=
  let mc := isMultipleChoice tq
  let multi := allowsMultipleSelections tq
  (if (c.operator == some "equals") && mc && multi then [mcCriticalMsg i j] else []) ++
  (if mc && listIncludes singleValueOperators c.operator && multi then
    [mcIncompatMsg i j (jsShow c.operator)] else []) ++
  (if !(truthy c.value) && !(listIncludes noValueOperators c.operator) then
    [mcMissingValueMsg i j c.operator] else []) ++
  (if !(truthy c.targetBlock) then [mcMissingTargetMsg i j] else [])

/-- The WARNINGs contributed by one condition of `validateMultipleChoiceLogic`. -/
def mcCondWarnings (tq : Block) (i j : Nat) (c : CondInput) : List String :=
  let mc := isMultipleChoice tq
  let multi := allowsMultipleSelections tq
  (if (c.operator == some "equals") && mc && !multi then [mcSingleSelectWarn i j] else []) ++
  (match c.value, optionValuesOf tq with
   | some v, some vals =>
     if v != "" && !(vals.contains (some v)) then [mcMismatchWarn i j v vals] else []
   | _, _ => [])

/-- The inner loop of `validateMultipleChoiceLogic` over the conditions of
block `i`, starting at condition index `j`: accumulated (issues, warnings). -/
def mcCondLoop (tq : Block) (i : Nat) : Nat → List CondInput → List String × List String
  | _, [] => ([], [])
  | j, c :: rest =>
    let p := mcCondLoop tq i (j + 1) rest
    (mcCondIssues tq i j c ++ p.1, mcCondWarnings tq i j c ++ p.2)

/-- The per-logic-block step of `validateMultipleChoiceLogic`: a missing
conditions array is an ISSUE, otherwise the condition loop runs. -/
def mcBlockChecks (tq : Block) (i : Nat) (lb : McLogicBlock) : List String × List String :=
  match lb.conditions with
  | none => ([mcMissingCondsMsg i], [])
  | some cs => mcCondLoop tq i 0 cs

/-- The outer loop of `validateMultipleChoiceLogic` over logic blocks,
starting at block index `i`. -/
def mcBlocksLoop (tq : Block) : Nat → List McLogicBlock → List String × List String
  | _, [] => ([], [])
  | i, lb :: rest =>
    let hd := mcBlockChecks tq i lb
    let tl := mcBlocksLoop tq (i + 1) rest
    (hd.1 ++ tl.1, hd.2 ++ tl.2)

/-- The validation report of `validateMultipleChoiceLogic`. -/
structure McReport where
  status : String
  issues : List String
  warnings : List String
  logicBlocks : Nat
  totalConditions : Nat
deriving DecidableEq

/-- Embedding of `validateMultipleChoiceLogic`. -/
def validateMultipleChoiceLogic (tq : Block) (lbs : List McLogicBlock) : McReport :=
  let mc := isMultipleChoice tq
  let res := mcBlocksLoop tq 0 lbs
  { status := if res.1.isEmpty then "VALID" else "INVALID"
    issues := res.1
    warnings := (if mc then [] else [mcTypeWarn tq]) ++ res.2
    logicBlocks := lbs.length
    totalConditions := lbs.foldl (fun s b =>
      s + (match b.conditions with | some cs => cs.length | none => 0)) 0 }

/-! ## validateFormLogicFlow -/

/-- The block map of `validateFormLogicFlow`: JavaScript `Map.set` keeps the
last block registered under a uuid. -/
def lookupBlock (blocks : List Block) (u : String) : Option Block :=
  blocks.foldl (fun acc b => if b.uuid = u then some b else acc) none

/-- `blockMap.has`. -/
def hasBlock (blocks : List Block) (u : String) : Bool :=
  (lookupBlock blocks u).isSome

/-- The logic blocks of the collection, in order. -/
def logicBlocksOf (blocks : List Block) : List Block :=
  blocks.filter (fun b => b.type == "LOGIC_JUMP")

/-- The input blocks of the collection (types starting with `INPUT_`). -/
def inputBlocksOf (blocks : List Block) : List Block :=
  blocks.filter (fun b => b.type.startsWith "INPUT_")

def flowTriggerMsg (lb : Block) (tf : String) : String :=
  "Logic block " ++ lb.uuid ++ " references non-existent trigger field: " ++ tf

def flowJumpMsg (lb : Block) (j : String) : String :=
  "Logic block " ++ lb.uuid ++ " has condition jumping to non-existent block: " ++ j

def flowDefaultMsg (lb : Block) (d : String) : String :=
  "Logic block " ++ lb.uuid ++ " has default jump to non-existent block: " ++ d

/-- The trigger-field referential-integrity ISSUE of one logic block. -/
def flowTriggerIssues (blocks : List Block) (lb : Block) : List String :=
  match lb.payload.triggerField with
  | some tf => if tf != "" && !(hasBlock blocks tf) then [flowTriggerMsg lb tf] else []
  | none => []

/-- The per-condition jump-target referential-integrity ISSUEs of one logic
block, in condition order.  Falsy jump targets are skipped, exactly as the
source's truthiness guard does. -/
def flowCondIssues (blocks : List Block) (lb : Block) : List String :=
  match lb.payload.conditions with
  | some cs => cs.flatMap fun c =>
      match c.jumpTo with
      | some j => if j != "" && !(hasBlock blocks j) then [flowJumpMsg lb j] else []
      | none => []
  | none => []

/-- The default-jump-target referential-integrity ISSUE of one logic block. -/
def flowDefaultIssues (blocks : List Block) (lb : Block) : List String :=
  match lb.payload.defaultJumpTo with
  | some d => if d != "" && !(hasBlock blocks d) then [flowDefaultMsg lb d] else []
  | none => []

/-- The referential-integrity ISSUEs one logic block contributes, in source
order: trigger field, then each condition's jump target, then the default
jump target. -/
def logicBlockIssues (blocks : List Block) (lb : Block) : List String :=
  flowTriggerIssues blocks lb ++ flowCondIssues blocks lb ++ flowDefaultIssues blocks lb

/-- All referential-integrity ISSUEs of `validateFormLogicFlow`. -/
def refIssues (blocks : List Block) : List String :=
  (logicBlocksOf blocks).flatMap (logicBlockIssues blocks)

/-- The truthy conditional jump targets of a condition list. -/
def condTargets (cs : List LogicCond) : List String :=
  cs.filterMap fun c =>
    match c.jumpTo with
    | some j => if j = "" then none else some j
    | none => none

/-- The successors the reachability traversal follows out of one block:
conditional jump targets and then the default jump target, and only for a
`LOGIC_JUMP` block that carries a conditions array.  No sequential
successor is ever produced. -/
def blockSuccs (b : Block) : List String :=
  if b.type = "LOGIC_JUMP" then
    match b.payload.conditions with
    | some cs =>
      condTargets cs ++
        (match b.payload.defaultJumpTo with
         | some d => if d = "" then [] else [d]
         | none => [])
    | none => []
  else []

/-- Successors of a node of the traversal, resolved through the block map. -/
def succs (blocks : List Block) (u : String) : List String :=
  match lookupBlock blocks u with
  | some b => blockSuccs b
  | none => []

/-- Embedding of the source's `traverseBlocks`: a depth-first walk with an
explicit shared visited list (the source's `visited` set, which doubles as
`reachableBlocks`).  `fuel` bounds the recursion depth. -/
def traverseBlocks (blocks : List Block) : Nat → String → List String → List String
  | 0, _, visited => visited
  | fuel + 1, u, visited =>
    if visited.contains u || !(hasBlock blocks u) then visited
    else (succs blocks u).foldl (fun vis v => traverseBlocks blocks fuel v vis) (u :: visited)

/-- The loop of `traverseBlocks` over a successor list. -/
def traverseList (blocks : List Block) (fuel : Nat) (l : List String)
    (visited : List String) : List String :=
  l.foldl (fun vis v => traverseBlocks blocks fuel v vis) visited

/-- Sufficient fuel for `traverseBlocks`: every productive call marks a
previously unvisited uuid of an existing block, so nesting is bounded by the
number of blocks. -/
def reachFuel (blocks : List Block) : Nat := blocks.length + 1

/-- The set of reachable uuids (`reachableBlocks` of the source): the
visited set after traversing from the first block's uuid. -/
def reachableUuids (blocks : List Block) : List String :=
  match blocks with
  | [] => []
  | b :: _ => traverseBlocks blocks (reachFuel blocks) b.uuid []

def unreachableMsg (b : Block) : String :=
  "Block " ++ b.uuid ++ " (" ++ b.type ++ ") may be unreachable"

/-- The unreachable-block WARNINGs: one per block that is not in the
reachable set and is not the entry (index 0) block. -/
def unreachableWarnings (blocks : List Block) : List String :=
  let reach := reachableUuids blocks
  blocks.enum.filterMap fun p =>
    if !(reach.contains p.2.uuid) && p.1 != 0 then some (unreachableMsg p.2) else none

/-- The successors the cycle detector follows out of one block: only
conditional jump targets, never the default jump target, and only for a
`LOGIC_JUMP` block that carries a conditions array. -/
def blockCircSuccs (b : Block) : List String :=
  if b.type = "LOGIC_JUMP" then
    match b.payload.conditions with
    | some cs => condTargets cs
    | none => []
  else []

/-- Successors of a node of the cycle detector, resolved through the block map. -/
def circSuccs (blocks : List Block) (u : String) : List String :=
  match lookupBlock blocks u with
  | some b => blockCircSuccs b
  | none => []

/-- Embedding of the source's `checkCircular`: returns the grown visited
list and whether a node was revisited.  Once a revisit is found the
accumulator is frozen, exactly as the source returns `true` early without
exploring further. -/
def checkCircular (blocks : List Block) : Nat → String → List String → List String × Bool
  | 0, _, visited => (visited, false)
  | fuel + 1, u, visited =>
    if visited.contains u then (visited, true)
    else (circSuccs blocks u).foldl
      (fun r v => if r.2 then r else checkCircular blocks fuel v r.1)
      (u :: visited, false)

/-- The loop of `checkCircular` over a successor list. -/
def checkList (blocks : List Block) (fuel : Nat) (l : List String)
    (r0 : List String × Bool) : List String × Bool :=
  l.foldl (fun r v => if r.2 then r else checkCircular blocks fuel v r.1) r0

/-- The truthy conditional jump targets declared by one block. -/
def blockAllTargets (b : Block) : List String :=
  match b.payload.conditions with
  | some cs => condTargets cs
  | none => []

/-- All distinct conditional jump targets of the collection. -/
def allCondTargets (blocks : List Block) : List String :=
  (blocks.flatMap blockAllTargets).dedup

/-- Sufficient fuel for `checkCircular`: every productive call marks a
previously unvisited node, and every node after the root is a conditional
jump target. -/
def circFuel (blocks : List Block) : Nat := (allCondTargets blocks).length + 2

def circularMsg (u : String) : String :=
  "Potential circular logic detected starting from block " ++ u

/-- The cycle WARNINGs of `detectCircularLogic`: each logic block is an
independent root with a freshly reset visited list. -/
def cycleWarnings (blocks : List Block) : List String :=
  (logicBlocksOf blocks).filterMap fun lb =>
    if (checkCircular blocks (circFuel blocks) lb.uuid []).2 then
      some (circularMsg lb.uuid)
    else none

/-- The validation report of `validateFormLogicFlow`. -/
structure FlowReport where
  status : String
  totalBlocks : Nat
  inputBlocks : Nat
  logicBlocks : Nat
  reachableBlocks : Nat
  issues : List String
  warnings : List String
deriving DecidableEq

/-- Embedding of `validateFormLogicFlow`. -/
def validateFormLogicFlow (blocks : List Block) : FlowReport :=
  let issues := refIssues blocks
  { status := if issues.isEmpty then "VALID" else "INVALID"
    totalBlocks := blocks.length
    inputBlocks := (inputBlocksOf blocks).length
    logicBlocks := (logicBlocksOf blocks).length
    reachableBlocks := (reachableUuids blocks).length
    issues := issues
    warnings := unreachableWarnings blocks ++ cycleWarnings blocks }

/-! ## createDynamicQuestionSets -/

/-- An option supplied inside a conditional option set (`text` required by
the tool schema, `value` optional). -/
structure SetOption where
  text : String
  value : Option String := none
deriving DecidableEq

/-- A conditional option set as supplied to `create_dynamic_question_sets`. -/
structure ConditionalOptionSet where
  triggerValue : Option String := none
  questionSuffix : Option String := none
  options : Option (List SetOption) := none
deriving DecidableEq

/-- Replace every maximal whitespace run by a single hyphen
(the `replace(/\s+/g, "-")` of the source). -/
def replaceWsRuns : List Char → List Char
  | [] => []
  | c :: rest =>
    if c.isWhitespace then
      '-' :: replaceWsRuns (rest.dropWhile Char.isWhitespace)
    else c :: replaceWsRuns rest
termination_by l => l.length
decreasing_by
  · exact Nat.lt_succ_of_le (List.dropWhile_sublist _).length_le
  · simp

/-- `text.toLowerCase().replace(/\s+/g, "-")`. -/
def slugify (s : String) : String :=
  ⟨replaceWsRuns s.toLower.data⟩

/-- One processed option of a question variant: generated uuid, original
text, and the supplied value or the slug of the text. -/
def processOption (questionUuid : String) (optIndex : Nat) (o : SetOption) : ChoiceOpt :=
  { uuid := some (questionUuid ++ "-opt-" ++ toString (optIndex + 1))
    text := some o.text
    value := some (match o.value with
      | some v => if v = "" then slugify o.text else v
      | none => slugify o.text) }

/-- The uuid of variant `i`: the base uuid for the default variant, a
`-variant-` suffix otherwise. -/
def variantUuid (baseUuid : String) (i : Nat) : String :=
  if i = 0 then baseUuid else baseUuid ++ "-variant-" ++ toString (i + 1)

/-- The question block generated for option set `i`. -/
def mkQuestionBlock (questionLabel questionType triggerField baseUuid : String)
    (i : Nat) (suffix : Option String) (opts : List SetOption) (tv : String) : Block :=
  let questionUuid := variantUuid baseUuid i
  { uuid := questionUuid
    type := questionType
    payload :=
      { label := some (match suffix with
          | some sfx => if sfx = "" then questionLabel else questionLabel ++ sfx
          | none => questionLabel)
        required := some true
        options := some (opts.enum.map fun p => processOption questionUuid p.1 p.2)
        dynamicContext := some
          { baseQuestion := baseUuid
            triggerField := triggerField
            triggerValue := tv
            variantIndex := i } } }

/-- The routing logic block generated for option set `i > 0`: a single
condition using operator `contains` jumping to the variant. -/
def mkRoutingBlock (triggerField baseUuid questionUuid : String) (i : Nat) (tv : String) : Block :=
  { uuid := "logic-" ++ questionUuid
    type := "LOGIC_JUMP"
    payload :=
      { triggerField := some triggerField
        conditions := some
          [{ field := some triggerField
             operator := some "contains"
             value := some tv
             jumpTo := some questionUuid }]
        logicType := some "dynamic_question_routing"
        questionContext := some { baseQuestion := baseUuid, variant := i + 1 } } }

def missingTriggerValueMsg (i : Nat) : String :=
  "Option set " ++ toString (i + 1) ++ " is missing triggerValue"

def missingOptionsMsg (i : Nat) : String :=
  "Option set " ++ toString (i + 1) ++ " is missing options array"

/-- The loop of `createDynamicQuestionSets` over option sets, starting at
index `i`: validates each set, then emits its question block and (for
`i > 0`) its routing block.  The first error aborts the whole call. -/
def processOptionSets (questionLabel questionType triggerField baseUuid : String) :
    Nat → List ConditionalOptionSet → Except String (List Block × List Block)
  | _, [] => .ok ([], [])
  | i, os :: rest =>
    if !(truthy os.triggerValue) then
      .error (missingTriggerValueMsg i)
    else
      match os.options with
      | none => .error (missingOptionsMsg i)
      | some opts =>
        if opts.isEmpty then .error (missingOptionsMsg i)
        else
          let tv := (os.triggerValue).getD ""
          let qb := mkQuestionBlock questionLabel questionType triggerField baseUuid
            i os.questionSuffix opts tv
          let routing := if i = 0 then [] else [mkRoutingBlock triggerField baseUuid qb.uuid i tv]
          match processOptionSets questionLabel questionType triggerField baseUuid (i + 1) rest with
          | .error e => .error e
          | .ok r => .ok (qb :: r.1, routing ++ r.2)

/-- Embedding of `createDynamicQuestionSets`.  The generated base identifier
(`dynamic-${Date.now()}-${random}` in the source) is the explicit
`baseUuid` argument.  Returns (question blocks, routing logic blocks). -/
def createDynamicQuestionSets (baseUuid questionLabel questionType triggerField : String)
    (sets : List ConditionalOptionSet) : Except String (List Block × List Block) :=
  if sets.isEmpty then .error "At least one conditional option set is required"
  else processOptionSets questionLabel questionType triggerField baseUuid 0 sets

/-! ## Specification-side notions

Declarative counterparts used to state the claims: an edge relation and its
reflexive-transitive closure for reachability, an exhaustive (non
short-circuiting) walk for the meaning of "some node is revisited", and
field-erasing maps used to state which edges a traversal does not follow
and which fields a validator does not read. -/

/-- The edge relation of the reachability traversal: `b` is a conditional or
default jump target of the block registered under `a`. -/
def condDefaultEdge (blocks : List Block) (a b : String) : Prop :=
  b ∈ succs blocks a

/-- Declarative reachability: `v` is connected to `u` by a chain of
conditional/default edges. -/
def ReachableFrom (blocks : List Block) (u v : String) : Prop :=
  Relation.ReflTransGen (condDefaultEdge blocks) u v

/-- The number of distinct block uuids not yet visited: the termination
measure of the traversal, used to show the supplied fuel is sufficient. -/
def unvisitedCount (blocks : List Block) (visited : List String) : Nat :=
  (((blocks.map Block.uuid).dedup).filter (fun u => !(visited.contains u))).length

/-- The exhaustive depth-first walk along conditional edges from a root:
unlike `checkCircular` it never stops early; the Boolean records whether
any call ever reached a node already in the visited list (a revisit). -/
def walk (blocks : List Block) : Nat → String → List String → List String × Bool
  | 0, _, visited => (visited, false)
  | fuel + 1, u, visited =>
    if visited.contains u then (visited, true)
    else (circSuccs blocks u).foldl
      (fun r v =>
        let w := walk blocks fuel v r.1
        (w.1, r.2 || w.2))
      (u :: visited, false)

/-- The loop of `walk` over a successor list; flags are joined with `||`,
so every branch is explored. -/
def walkList (blocks : List Block) (fuel : Nat) (l : List String)
    (r0 : List String × Bool) : List String × Bool :=
  l.foldl (fun r v =>
    let w := walk blocks fuel v r.1
    (w.1, r.2 || w.2)) r0

/-- Erase every condition's `value` field (the payloads' conditional jump
structure is untouched). -/
def eraseCondValue (c : LogicCond) : LogicCond :=
  { c with value := none }

def eraseCondValues (b : Block) : Block :=
  { b with payload :=
      { b.payload with
          conditions := Option.map (List.map eraseCondValue) b.payload.conditions } }

/-- Erase the default jump target of a block. -/
def eraseDefault (b : Block) : Block :=
  { b with payload := { b.payload with defaultJumpTo := none } }

/-- A well-formed conditional option set: a truthy trigger value and a
non-empty options array. -/
def ValidOptionSet (os : ConditionalOptionSet) : Prop :=
  truthy os.triggerValue = true ∧ ∃ opts, os.options = some opts ∧ opts ≠ []

/-! ## Concrete examples used by witnesses and counterexamples -/

/-- A checkbox trigger question. -/
def exCheckboxTrigger : Block := { uuid := "q", type := "INPUT_CHECKBOXES" }

/-- A single-select multiple-choice trigger question. -/
def exSingleSelectTrigger : Block := { uuid := "q", type := "INPUT_MULTIPLE_CHOICE" }

/-- A complete `equals` condition. -/
def exEqualsCond : CondInput :=
  { operator := some "equals", value := some "yes", targetBlock := some "b" }

/-- A complete `contains` condition. -/
def exContainsCond : CondInput :=
  { operator := some "contains", value := some "yes", targetBlock := some "b" }

/-- A condition whose `value` is present but is the empty string. -/
def exEmptyValueCond : CondInput :=
  { operator := some "equals", value := some "", targetBlock := some "b" }

/-- A one-condition logic-block argument for `validateMultipleChoiceLogic`. -/
def exMcBlock (c : CondInput) : McLogicBlock := { conditions := some [c] }

/-- Two plain sequential input blocks. -/
def exInputA : Block := { uuid := "b1", type := "INPUT_TEXT" }

def exInputB : Block := { uuid := "b2", type := "INPUT_TEXT" }

/-- An input block sharing `exInputA`'s uuid. -/
def exInputDup : Block := { uuid := "b1", type := "INPUT_EMAIL" }

/-- A logic block whose single condition uses `equals`, has no value, and
jumps back to the block itself (so the jump target resolves). -/
def exNoValueLogic : Block :=
  { uuid := "a", type := "LOGIC_JUMP",
    payload := { conditions := some [{ operator := some "equals", jumpTo := some "a" }] } }

/-- A logic block whose single condition jumps to a uuid that resolves to
no block. -/
def exDanglingCond : LogicCond :=
  { operator := some "equals", value := some "x", jumpTo := some "missing" }

def exDanglingLogic : Block :=
  { uuid := "a", type := "LOGIC_JUMP",
    payload := { conditions := some [exDanglingCond] } }

/-- Two logic blocks whose conditional edges form a two-cycle. -/
def exCycleL1 : Block :=
  { uuid := "l1", type := "LOGIC_JUMP",
    payload := { conditions := some [{ jumpTo := some "l2" }] } }

def exCycleL2 : Block :=
  { uuid := "l2", type := "LOGIC_JUMP",
    payload := { conditions := some [{ jumpTo := some "l1" }] } }

/-- The same two logic blocks with the back-edge removed. -/
def exNoCycleL2 : Block :=
  { uuid := "l2", type := "LOGIC_JUMP",
    payload := { conditions := some [] } }

/-- A valid option set with trigger value `A`. -/
def exSetA : ConditionalOptionSet :=
  { triggerValue := some "A", options := some [{ text := "X" }] }

/-- A valid option set with trigger value `B`. -/
def exSetB : ConditionalOptionSet :=
  { triggerValue := some "B", options := some [{ text := "Y" }] }

/-- An option set missing its options array. -/
def exBadSet : ConditionalOptionSet := { triggerValue := some "A" }

/-! ## General lemmas -/

theorem status_of_issues (l : List String) :
    (if l.isEmpty then "VALID" else "INVALID") = "INVALID" ↔ l ≠ [] := by
  cases l <;> simp

theorem mcCondLoop_issue_mem (tq : Block) (i : Nat) :
    ∀ (j0 j : Nat) (cs : List CondInput) (c : CondInput), cs.get? j = some c →
      ∀ x ∈ mcCondIssues tq i (j0 + j) c, x ∈ (mcCondLoop tq i j0 cs).1 := by
  intro j0 j cs
  induction cs generalizing j0 j with
  | nil => intro c h; simp at h
  | cons hd tl ih =>
    intro c h x hx
    cases j with
    | zero =>
      simp at h
      subst h
      exact List.mem_append_left _ hx
    | succ j' =>
      simp only [List.get?] at h
      have := ih (j0 + 1) j' c h x (by
        have : j0 + 1 + j' = j0 + (j' + 1) := by omega
        rw [this]; exact hx)
      exact List.mem_append_right _ this

theorem mcCondLoop_warn_mem (tq : Block) (i : Nat) :
    ∀ (j0 j : Nat) (cs : List CondInput) (c : CondInput), cs.get? j = some c →
      ∀ x ∈ mcCondWarnings tq i (j0 + j) c, x ∈ (mcCondLoop tq i j0 cs).2 := by
  intro j0 j cs
  induction cs generalizing j0 j with
  | nil => intro c h; simp at h
  | cons hd tl ih =>
    intro c h x hx
    cases j with
    | zero =>
      simp at h
      subst h
      exact List.mem_append_left _ hx
    | succ j' =>
      simp only [List.get?] at h
      have := ih (j0 + 1) j' c h x (by
        have : j0 + 1 + j' = j0 + (j' + 1) := by omega
        rw [this]; exact hx)
      exact List.mem_append_right _ this

theorem mcBlocksLoop_issue_mem (tq : Block) :
    ∀ (i0 i : Nat) (lbs : List McLogicBlock) (lb : McLogicBlock), lbs.get? i = some lb →
      ∀ x ∈ (mcBlockChecks tq (i0 + i) lb).1, x ∈ (mcBlocksLoop tq i0 lbs).1 := by
  intro i0 i lbs
  induction lbs generalizing i0 i with
  | nil => intro lb h; simp at h
  | cons hd tl ih =>
    intro lb h x hx
    cases i with
    | zero =>
      simp at h
      subst h
      exact List.mem_append_left _ hx
    | succ i' =>
      simp only [List.get?] at h
      have := ih (i0 + 1) i' lb h x (by
        have : i0 + 1 + i' = i0 + (i' + 1) := by omega
        rw [this]; exact hx)
      exact List.mem_append_right _ this

theorem mcBlocksLoop_warn_mem (tq : Block) :
    ∀ (i0 i : Nat) (lbs : List McLogicBlock) (lb : McLogicBlock), lbs.get? i = some lb →
      ∀ x ∈ (mcBlockChecks tq (i0 + i) lb).2, x ∈ (mcBlocksLoop tq i0 lbs).2 := by
  intro i0 i lbs
  induction lbs generalizing i0 i with
  | nil => intro lb h; simp at h
  | cons hd tl ih =>
    intro lb h x hx
    cases i with
    | zero =>
      simp at h
      subst h
      exact List.mem_append_left _ hx
    | succ i' =>
      simp only [List.get?] at h
      have := ih (i0 + 1) i' lb h x (by
        have : i0 + 1 + i' = i0 + (i' + 1) := by omega
        rw [this]; exact hx)
      exact List.mem_append_right _ this

/-- Any issue contributed by condition `j` of logic block `i` is in the
final issues list of `validateMultipleChoiceLogic`. -/
theorem mc_issue_mem (tq : Block) (lbs : List McLogicBlock) (i j : Nat)
    (lb : McLogicBlock) (cs : List CondInput) (c : CondInput)
    (hlb : lbs.get? i = some lb) (hcs : lb.conditions = some cs)
    (hc : cs.get? j = some c) :
    ∀ x ∈ mcCondIssues tq i j c, x ∈ (validateMultipleChoiceLogic tq lbs).issues := by
  intro x hx
  have h1 : x ∈ (mcCondLoop tq i 0 cs).1 := by
    have := mcCondLoop_issue_mem tq i 0 j cs c hc x (by simpa using hx)
    exact this
  have h2 : x ∈ (mcBlockChecks tq i lb).1 := by
    rw [mcBlockChecks, hcs]
    exact h1
  have h3 := mcBlocksLoop_issue_mem tq 0 i lbs lb hlb x (by simpa using h2)
  simpa [validateMultipleChoiceLogic] using h3

/-- Any warning contributed by condition `j` of logic block `i` is in the
final warnings list of `validateMultipleChoiceLogic`. -/
theorem mc_warn_mem (tq : Block) (lbs : List McLogicBlock) (i j : Nat)
    (lb : McLogicBlock) (cs : List CondInput) (c : CondInput)
    (hlb : lbs.get? i = some lb) (hcs : lb.conditions = some cs)
    (hc : cs.get? j = some c) :
    ∀ x ∈ mcCondWarnings tq i j c, x ∈ (validateMultipleChoiceLogic tq lbs).warnings := by
  intro x hx
  have h1 : x ∈ (mcCondLoop tq i 0 cs).2 := by
    have := mcCondLoop_warn_mem tq i 0 j cs c hc x (by simpa using hx)
    exact this
  have h2 : x ∈ (mcBlockChecks tq i lb).2 := by
    rw [mcBlockChecks, hcs]
    exact h1
  have h3 := mcBlocksLoop_warn_mem tq 0 i lbs lb hlb x (by simpa using h2)
  simp [validateMultipleChoiceLogic]
  right
  exact h3

/-- C3: For every input, the ValidationReport produced by validateLogicFlow
and by validateChoiceLogic has status INVALID if and only if its issues list
is non-empty; the content of the warnings list never affects the status. -/
theorem c3_status_iff_issues (blocks : List Block) (tq : Block) (lbs : List McLogicBlock) :
    ((validateFormLogicFlow blocks).status = "INVALID" ↔
      (validateFormLogicFlow blocks).issues ≠ []) ∧
    ((validateMultipleChoiceLogic tq lbs).status = "INVALID" ↔
      (validateMultipleChoiceLogic tq lbs).issues ≠ []) := by
  constructor
  · exact status_of_issues (refIssues blocks)
  · exact status_of_issues (mcBlocksLoop tq 0 lbs).1

/-- A trigger that allows multiple selections is in the multiple-choice family. -/
theorem mc_of_multi (tq : Block) (h : allowsMultipleSelections tq = true) :
    isMultipleChoice tq = true := by
  simp [allowsMultipleSelections] at h
  rcases h with h | h
  · simp [isMultipleChoice, h]
  · simp [isMultipleChoice, h.1]

/-- C1: a condition using `equals` against a trigger that allows multiple
selections contributes a critical ISSUE and makes the report INVALID; the
same operator against a single-select multiple-choice trigger contributes
no ISSUE, only a WARNING; and an otherwise-complete condition using
`contains` contributes zero ISSUEs. -/
theorem c1_operator_compatibility (tq : Block) (lbs : List McLogicBlock) (i j : Nat)
    (lb : McLogicBlock) (cs : List CondInput) (c : CondInput)
    (hlb : lbs.get? i = some lb) (hcs : lb.conditions = some cs)
    (hc : cs.get? j = some c) :
    (c.operator = some "equals" → allowsMultipleSelections tq = true →
      mcCriticalMsg i j ∈ (validateMultipleChoiceLogic tq lbs).issues ∧
      (validateMultipleChoiceLogic tq lbs).status = "INVALID") ∧
    (c.operator = some "equals" → tq.type = "INPUT_MULTIPLE_CHOICE" →
      allowsMultipleSelections tq = false →
      truthy c.value = true → truthy c.targetBlock = true →
      mcCondIssues tq i j c = [] ∧
      mcSingleSelectWarn i j ∈ (validateMultipleChoiceLogic tq lbs).warnings) ∧
    (c.operator = some "contains" →
      truthy c.value = true → truthy c.targetBlock = true →
      mcCondIssues tq i j c = []) := by
  refine ⟨fun hop hmulti => ?_, fun hop htype hmulti hval htgt => ?_,
    fun hop hval htgt => ?_⟩
  · have hmc := mc_of_multi tq hmulti
    have hmem : mcCriticalMsg i j ∈ mcCondIssues tq i j c := by
      simp [mcCondIssues, hop, hmc, hmulti]
    have hin := mc_issue_mem tq lbs i j lb cs c hlb hcs hc _ hmem
    refine ⟨hin, ?_⟩
    exact (status_of_issues (mcBlocksLoop tq 0 lbs).1).mpr (List.ne_nil_of_mem hin)
  · have hmc : isMultipleChoice tq = true := by simp [isMultipleChoice, htype]
    constructor
    · simp [mcCondIssues, hop, hmc, hmulti, hval, htgt, listIncludes,
        singleValueOperators, noValueOperators]
    · have hmem : mcSingleSelectWarn i j ∈ mcCondWarnings tq i j c := by
        simp [mcCondWarnings, hop, hmc, hmulti]
      exact mc_warn_mem tq lbs i j lb cs c hlb hcs hc _ hmem
  · simp [mcCondIssues, hop, hval, htgt, listIncludes, singleValueOperators,
      noValueOperators]

/-- Witness for C1 at concrete inputs: an `INPUT_CHECKBOXES` trigger with an
`equals` condition, an `INPUT_MULTIPLE_CHOICE` single-select trigger with an
`equals` condition, and a `contains` condition. -/
theorem c1_operator_compatibility_witness :
    (mcCriticalMsg 0 0 ∈
        (validateMultipleChoiceLogic exCheckboxTrigger [exMcBlock exEqualsCond]).issues ∧
      (validateMultipleChoiceLogic exCheckboxTrigger [exMcBlock exEqualsCond]).status
        = "INVALID") ∧
    (mcCondIssues exSingleSelectTrigger 0 0 exEqualsCond = [] ∧
      mcSingleSelectWarn 0 0 ∈
        (validateMultipleChoiceLogic exSingleSelectTrigger [exMcBlock exEqualsCond]).warnings) ∧
    (mcCondIssues exCheckboxTrigger 0 0 exContainsCond = []) := by
  refine ⟨?_, ?_, ?_⟩
  · exact (c1_operator_compatibility exCheckboxTrigger [exMcBlock exEqualsCond]
      0 0 _ _ _ rfl rfl rfl).1 rfl (by decide)
  · exact (c1_operator_compatibility exSingleSelectTrigger [exMcBlock exEqualsCond]
      0 0 _ _ _ rfl rfl rfl).2.1 rfl rfl (by decide) (by decide) (by decide)
  · exact (c1_operator_compatibility exCheckboxTrigger [exMcBlock exContainsCond]
      0 0 _ _ _ rfl rfl rfl).2.2 rfl (by decide) (by decide)

theorem mcCondIssues_missing_value_mem (tq : Block) (i j : Nat) (c : CondInput)
    (hval : truthy c.value = false)
    (hop : listIncludes noValueOperators c.operator = false) :
    mcMissingValueMsg i j c.operator ∈ mcCondIssues tq i j c := by
  simp [mcCondIssues, hval, hop]

/-- C10: presence of a condition's value is decided by JavaScript
truthiness: a condition whose `value` is the empty string fails the
missing-value check of `createConditionalLogicBlock` and of
`validateMultipleChoiceLogic`, even though a value field is present. -/
theorem c10_empty_string_value (u t : String) (dt lt : Option String) (c : CondInput)
    (tq : Block) (lbs : List McLogicBlock) (i j : Nat) (lb : McLogicBlock)
    (cs : List CondInput)
    (hop : listIncludes noValueOperators c.operator = false)
    (hval : c.value = some "") :
    (truthy c.operator = true → truthy c.targetBlock = true →
      createConditionalLogicBlock u t [c] dt lt =
        .error ("Value is required for operator \x27" ++ jsShow c.operator ++ "\x27")) ∧
    (lbs.get? i = some lb → lb.conditions = some cs → cs.get? j = some c →
      mcMissingValueMsg i j c.operator ∈ (validateMultipleChoiceLogic tq lbs).issues) := by
  constructor
  · intro hopT htgtT
    have hv : truthy c.value = false := by rw [hval]; decide
    have he : condInputError c =
        some ("Value is required for operator \x27" ++ jsShow c.operator ++ "\x27") := by
      simp [condInputError, hopT, htgtT, hop, hv]
    simp [createConditionalLogicBlock, firstCondError, he]
  · intro h1 h2 h3
    have hv : truthy c.value = false := by simp [truthy, hval]
    exact mc_issue_mem tq lbs i j lb cs c h1 h2 h3 _
      (mcCondIssues_missing_value_mem tq i j c hv hop)

/-- Witness for C10: the condition `equals` / `value = ""` / `targetBlock`
present is rejected by the factory and flagged by the choice validator. -/
theorem c10_empty_string_value_witness :
    createConditionalLogicBlock "u" "t" [exEmptyValueCond] none none =
      .error ("Value is required for operator \x27equals\x27") ∧
    mcMissingValueMsg 0 0 (some "equals") ∈
      (validateMultipleChoiceLogic exSingleSelectTrigger [exMcBlock exEmptyValueCond]).issues := by
  have h := c10_empty_string_value "u" "t" none none exEmptyValueCond
    exSingleSelectTrigger [exMcBlock exEmptyValueCond] 0 0
    (exMcBlock exEmptyValueCond) [exEmptyValueCond] (by decide) rfl
  exact ⟨h.1 (by decide) (by decide), h.2 rfl rfl rfl⟩

theorem firstCondError_isSome :
    ∀ (conds : List CondInput) (c : CondInput), c ∈ conds →
      condInputError c ≠ none → firstCondError conds ≠ none := by
  intro conds
  induction conds with
  | nil => intro c hc; simp at hc
  | cons hd tl ih =>
    intro c hc hbad
    rcases List.mem_cons.mp hc with h | h
    · subst h
      rcases he : condInputError c with _ | e
      · exact absurd he hbad
      · simp [firstCondError, he]
    · rcases he : condInputError hd with _ | e
      · simpa [firstCondError, he] using ih c h hbad
      · simp [firstCondError, he]

/-- C4: `buildConditionalBlock` fails whenever some condition lacks an
operator or targetBlock, or lacks a value while its operator is not
`is_empty`/`is_not_empty`; an `equals` condition without value fails with
the missing-value error; an `is_empty` condition without value succeeds and
the built block's single condition has `value` unset. -/
theorem c4_factory_validation (u t : String) (conds : List CondInput)
    (dt lt : Option String) (c : CondInput) (hc : c ∈ conds)
    (hbad : c.operator = none ∨ c.targetBlock = none ∨
      (listIncludes noValueOperators c.operator = false ∧ c.value = none)) :
    (∃ e, createConditionalLogicBlock u t conds dt lt = .error e) ∧
    (createConditionalLogicBlock u t
        [{ operator := some "equals", targetBlock := some "b1" }] none none =
      .error ("Value is required for operator \x27equals\x27")) ∧
    (∃ b, createConditionalLogicBlock u t
        [{ operator := some "is_empty", targetBlock := some "b1" }] none none = .ok b ∧
      b.payload.conditions = some
        [{ field := some t, operator := some "is_empty", value := none,
           jumpTo := some "b1" }]) := by
  refine ⟨?_, ?_, ?_⟩
  · have hne : condInputError c ≠ none := by
      rcases hbad with h | h | h
      · have : truthy c.operator = false := by rw [h]; decide
        simp [condInputError, this]
      · have : truthy c.targetBlock = false := by rw [h]; decide
        simp [condInputError, this]
      · have hv : truthy c.value = false := by rw [h.2]; decide
        by_cases h1 : (truthy c.operator && truthy c.targetBlock) = true
        · simp [condInputError, h1, h.1, hv]
        · simp [condInputError, h1]
    have := firstCondError_isSome conds c hc hne
    rcases hfe : firstCondError conds with _ | e
    · exact absurd hfe this
    · exact ⟨e, by simp [createConditionalLogicBlock, hfe]⟩
  · rfl
  · exact ⟨_, rfl, rfl⟩

/-- Witness for C4: a condition with no fields at all makes the factory fail. -/
theorem c4_factory_validation_witness :
    (∃ e, createConditionalLogicBlock "u" "t" [{}] none none = .error e) ∧
    (createConditionalLogicBlock "u" "t"
        [{ operator := some "equals", targetBlock := some "b1" }] none none =
      .error ("Value is required for operator \x27equals\x27")) ∧
    (∃ b, createConditionalLogicBlock "u" "t"
        [{ operator := some "is_empty", targetBlock := some "b1" }] none none = .ok b ∧
      b.payload.conditions = some
        [{ field := some "t", operator := some "is_empty", value := none,
           jumpTo := some "b1" }]) :=
  c4_factory_validation "u" "t" [{}] none none {} (by decide) (Or.inl rfl)

/-- C9 counterexample: two invocations of the factory with equal inputs but
the two different generated identifiers the source would produce on two
calls yield different outputs, so outputs (in particular the generated
block identifiers) are not identical across invocations. -/
theorem c9_counterexample :
    (createConditionalLogicBlock "logic-1-aaaa" "t" [exEqualsCond] none none).toOption.map
        Block.uuid ≠
      (createConditionalLogicBlock "logic-1-bbbb" "t" [exEqualsCond] none none).toOption.map
        Block.uuid := by
  decide

theorem processOptionSets_shape (ql qt tf bA bB : String) :
    ∀ (i : Nat) (sets : List ConditionalOptionSet),
      (processOptionSets ql qt tf bA i sets).map (fun r => (r.1.length, r.2.length)) =
      (processOptionSets ql qt tf bB i sets).map (fun r => (r.1.length, r.2.length)) := by
  intro i sets
  induction sets generalizing i with
  | nil => rfl
  | cons os rest ih =>
    simp only [processOptionSets]
    by_cases htv : truthy os.triggerValue = true
    · simp only [htv, Bool.not_true, Bool.false_eq_true, if_false]
      rcases hopt : os.options with _ | opts
      · rfl
      · by_cases hemp : opts.isEmpty = true
        · simp [hemp]
        · simp only [hemp, Bool.false_eq_true, if_false]
          have hih := ih (i + 1)
          rcases hA : processOptionSets ql qt tf bA (i + 1) rest with eA | pA <;>
            rcases hB : processOptionSets ql qt tf bB (i + 1) rest with eB | pB <;>
              rw [hA, hB] at hih <;> simp [Except.map] at hih ⊢
          · exact hih
          · obtain ⟨h1, h2⟩ := hih
            by_cases hi : i = 0 <;> simp [hi, h1, h2]
    · simp [htv]

/-- C9 amended: each constructor is deterministic given its inputs together
with the generated identifier; outputs for different generated identifiers
agree on everything except the derived identifiers (the factory's result
agrees on type, payload and error; the generator's result agrees on
success/error and on the counts of generated question and logic blocks). -/
theorem c9_determinism (u1 u2 t : String) (conds : List CondInput)
    (dt lt : Option String) (b1 b2 ql qt tf : String)
    (sets : List ConditionalOptionSet) :
    (createConditionalLogicBlock u1 t conds dt lt).map (fun b => (b.type, b.payload)) =
      (createConditionalLogicBlock u2 t conds dt lt).map (fun b => (b.type, b.payload)) ∧
    (createDynamicQuestionSets b1 ql qt tf sets).map (fun r => (r.1.length, r.2.length)) =
      (createDynamicQuestionSets b2 ql qt tf sets).map (fun r => (r.1.length, r.2.length)) := by
  constructor
  · rcases h : firstCondError conds with _ | e <;>
      simp [createConditionalLogicBlock, h, Except.map]
  · by_cases hemp : sets.isEmpty
    · simp [createDynamicQuestionSets, hemp]
    · simp only [createDynamicQuestionSets, hemp]
      exact processOptionSets_shape ql qt tf b1 b2 0 sets

/-- Witness for C9 amended, at concrete inputs. -/
theorem c9_determinism_witness :
    (createConditionalLogicBlock "ua" "t" [exEqualsCond] none none).map
        (fun b => (b.type, b.payload)) =
      (createConditionalLogicBlock "ub" "t" [exEqualsCond] none none).map
        (fun b => (b.type, b.payload)) ∧
    (createDynamicQuestionSets "basea" "L" "INPUT_MULTIPLE_CHOICE" "q" [exSetA]).map
        (fun r => (r.1.length, r.2.length)) =
      (createDynamicQuestionSets "baseb" "L" "INPUT_MULTIPLE_CHOICE" "q" [exSetA]).map
        (fun r => (r.1.length, r.2.length)) :=
  c9_determinism "ua" "ub" "t" [exEqualsCond] none none "basea" "baseb" "L"
    "INPUT_MULTIPLE_CHOICE" "q" [exSetA]

/-- C8 counterexample: a collection with two blocks sharing uuid `b1` is
processed without any failure: the report is VALID with no issues, and the
block map silently kept the later block. -/
theorem c8_counterexample :
    (validateFormLogicFlow [exInputA, exInputDup]).status = "VALID" ∧
    (validateFormLogicFlow [exInputA, exInputDup]).issues = [] ∧
    lookupBlock [exInputA, exInputDup] "b1" = some exInputDup := by
  decide

/-- C8 amended: registering a collection in which two blocks share an id
does not fail: the block map keeps the later block for that id and
validation proceeds normally (here, with no logic blocks, to a VALID
report). -/
theorem c8_duplicate_ids (bA bB : Block) (huuid : bA.uuid = bB.uuid)
    (hA : bA.type ≠ "LOGIC_JUMP") (hB : bB.type ≠ "LOGIC_JUMP") :
    lookupBlock [bA, bB] bA.uuid = some bB ∧
    (validateFormLogicFlow [bA, bB]).issues = [] ∧
    (validateFormLogicFlow [bA, bB]).status = "VALID" := by
  have hlb : logicBlocksOf [bA, bB] = [] := by
    simp [logicBlocksOf, hA, hB]
  have hiss : refIssues [bA, bB] = [] := by
    simp [refIssues, hlb]
  refine ⟨?_, ?_, ?_⟩
  · simp [lookupBlock, huuid]
  · simpa [validateFormLogicFlow] using hiss
  · simp [validateFormLogicFlow, hiss]

/-- Witness for C8 amended at a concrete duplicate pair. -/
theorem c8_duplicate_ids_witness :
    lookupBlock [exInputA, exInputDup] exInputA.uuid = some exInputDup ∧
    (validateFormLogicFlow [exInputA, exInputDup]).issues = [] ∧
    (validateFormLogicFlow [exInputA, exInputDup]).status = "VALID" :=
  c8_duplicate_ids exInputA exInputDup rfl (by decide) (by decide)

/-- C6 counterexample: a logic block whose condition uses `equals` with no
value (and a resolving jump target) produces zero ISSUEs from
`validateFormLogicFlow`: the flow validator performs no missing-value
check. -/
theorem c6_counterexample :
    (validateFormLogicFlow [exNoValueLogic]).issues = [] ∧
    (validateFormLogicFlow [exNoValueLogic]).status = "VALID" := by
  decide

/-- C2 counterexample: in a two-block form with no logic blocks, the second
block is reachable from the entry along the sequential edge, yet the
traversal (which follows no sequential edges) reports it as possibly
unreachable. -/
theorem c2_counterexample :
    (validateFormLogicFlow [exInputA, exInputB]).warnings =
      ["Block b2 (INPUT_TEXT) may be unreachable"] := by
  decide

theorem processOptionSets_ok_pos (ql qt tf base : String) :
    ∀ (sets : List ConditionalOptionSet) (i : Nat), 1 ≤ i →
      (∀ os ∈ sets, ValidOptionSet os) →
      ∃ qbs lbs, processOptionSets ql qt tf base i sets = .ok (qbs, lbs) ∧
        qbs.length = sets.length ∧ lbs.length = sets.length ∧
        (∀ (k : Nat) (os : ConditionalOptionSet) (tv : String),
          sets.get? k = some os → os.triggerValue = some tv →
          ∃ qb, qbs.get? k = some qb ∧ qb.uuid = variantUuid base (i + k) ∧
            lbs.get? k = some (mkRoutingBlock tf base qb.uuid (i + k) tv)) := by
  intro sets
  induction sets with
  | nil =>
    intro i _ _
    exact ⟨[], [], rfl, rfl, rfl, by intro k os tv h; simp at h⟩
  | cons os rest ih =>
    intro i hi hval
    obtain ⟨htv, opts, hopt, hne⟩ := hval os (List.mem_cons_self os rest)
    have hemp : opts.isEmpty = false := by
      cases opts
      · exact absurd rfl hne
      · rfl
    obtain ⟨qbs', lbs', hrec, hlen1, hlen2, hidx⟩ :=
      ih (i + 1) (by omega) (fun o ho => hval o (List.mem_cons_of_mem os ho))
    have hi0 : i ≠ 0 := by omega
    refine ⟨mkQuestionBlock ql qt tf base i os.questionSuffix opts (os.triggerValue.getD "")
        :: qbs',
      mkRoutingBlock tf base (variantUuid base i) i (os.triggerValue.getD "") :: lbs',
      ?_, by simp [hlen1], by simp [hlen2], ?_⟩
    · simp only [processOptionSets, htv, Bool.not_true, Bool.false_eq_true, if_false,
        hopt, hemp, hrec, hi0, if_neg]
      rfl
    · intro k o tv hk htv'
      cases k with
      | zero =>
        simp at hk
        subst hk
        refine ⟨_, rfl, rfl, ?_⟩
        simp [htv', mkQuestionBlock]
      | succ k' =>
        simp only [List.get?] at hk
        obtain ⟨qb, h1, h2, h3⟩ := hidx k' o tv hk htv'
        have harith : i + 1 + k' = i + (k' + 1) := by omega
        rw [harith] at h2 h3
        exact ⟨qb, by simpa using h1, h2, by simpa using h3⟩

theorem processOptionSets_error (ql qt tf base : String) :
    ∀ (sets : List ConditionalOptionSet) (i : Nat) (os : ConditionalOptionSet),
      os ∈ sets → ¬ ValidOptionSet os →
      ∃ e, processOptionSets ql qt tf base i sets = .error e := by
  intro sets
  induction sets with
  | nil => intro i os h; simp at h
  | cons hd rest ih =>
    intro i os hmem hbad
    by_cases htv : truthy hd.triggerValue = true
    · rcases hopt : hd.options with _ | opts
      · refine ⟨missingOptionsMsg i, ?_⟩
        simp [processOptionSets, htv, hopt]
      · by_cases hemp : opts.isEmpty = true
        · refine ⟨missingOptionsMsg i, ?_⟩
          simp [processOptionSets, htv, hopt, hemp]
        · have hos : os ∈ rest := by
            rcases List.mem_cons.mp hmem with h | h
            · subst h
              exact absurd ⟨htv, opts, hopt, by
                cases opts
                · simp at hemp
                · simp⟩ hbad
            · exact h
          obtain ⟨e, he⟩ := ih (i + 1) os hos hbad
          refine ⟨e, ?_⟩
          simp [processOptionSets, htv, hopt, hemp, he]
    · refine ⟨missingTriggerValueMsg i, ?_⟩
      simp only [processOptionSets]
      simp [htv]

/-- C5: with `n` well-formed conditional option sets, the generator returns
exactly `n` question blocks and `n - 1` routing logic blocks; the set at
index 0 receives no routing block; the routing block for set `k + 1` has
exactly one condition, with operator `contains`, that set's trigger value,
and that variant's uuid as jump target.  It fails on an empty list of sets
and on any ill-formed set. -/
theorem c5_dynamic_question_sets (base ql qt tf : String)
    (sets : List ConditionalOptionSet) :
    ((∀ os ∈ sets, ValidOptionSet os) → sets ≠ [] →
      ∃ qbs lbs, createDynamicQuestionSets base ql qt tf sets = .ok (qbs, lbs) ∧
        qbs.length = sets.length ∧ lbs.length = sets.length - 1 ∧
        (∀ (k : Nat) (os : ConditionalOptionSet) (tv : String),
          sets.get? (k + 1) = some os → os.triggerValue = some tv →
          ∃ qb lb, qbs.get? (k + 1) = some qb ∧ lbs.get? k = some lb ∧
            lb.payload.conditions = some
              [{ field := some tf, operator := some "contains", value := some tv,
                 jumpTo := some qb.uuid }])) ∧
    (sets = [] → createDynamicQuestionSets base ql qt tf sets =
      .error "At least one conditional option set is required") ∧
    (∀ os ∈ sets, ¬ ValidOptionSet os →
      ∃ e, createDynamicQuestionSets base ql qt tf sets = .error e) := by
  refine ⟨?_, ?_, ?_⟩
  · intro hval hne
    rcases sets with _ | ⟨s0, rest⟩
    · exact absurd rfl hne
    obtain ⟨htv, opts, hopt, hone⟩ := hval s0 (List.mem_cons_self s0 rest)
    have hemp : opts.isEmpty = false := by
      cases opts
      · exact absurd rfl hone
      · rfl
    obtain ⟨qbs', lbs', hrec, hlen1, hlen2, hidx⟩ :=
      processOptionSets_ok_pos ql qt tf base rest 1 (by omega)
        (fun o ho => hval o (List.mem_cons_of_mem s0 ho))
    refine ⟨mkQuestionBlock ql qt tf base 0 s0.questionSuffix opts (s0.triggerValue.getD "")
        :: qbs', lbs', ?_, by simp [hlen1], by simp [hlen2], ?_⟩
    · simp only [createDynamicQuestionSets, List.isEmpty_cons, Bool.false_eq_true, if_false,
        processOptionSets, htv, Bool.not_true, hopt, hemp, hrec]
      rfl
    · intro k o tv hk htv'
      simp only [List.get?] at hk
      obtain ⟨qb, h1, _, h3⟩ := hidx k o tv hk htv'
      refine ⟨qb, mkRoutingBlock tf base qb.uuid (1 + k) tv, by simpa using h1, h3, rfl⟩
  · intro h
    subst h
    rfl
  · intro os hmem hbad
    obtain ⟨e, he⟩ := processOptionSets_error ql qt tf base sets 0 os hmem hbad
    refine ⟨e, ?_⟩
    have hne : sets.isEmpty = false := by
      cases sets
      · simp at hmem
      · rfl
    simp [createDynamicQuestionSets, hne, he]

/-- Witness for C5 at the spec's concrete example: two option sets yield two
question blocks and one routing block whose single condition uses
`contains`. -/
theorem c5_dynamic_question_sets_witness :
    ∃ qbs lbs,
      createDynamicQuestionSets "base" "Challenge" "INPUT_MULTIPLE_CHOICE" "q4"
        [exSetA, exSetB] = .ok (qbs, lbs) ∧
      qbs.length = 2 ∧ lbs.length = 1 ∧
      (∀ (k : Nat) (os : ConditionalOptionSet) (tv : String),
        [exSetA, exSetB].get? (k + 1) = some os → os.triggerValue = some tv →
        ∃ qb lb, qbs.get? (k + 1) = some qb ∧ lbs.get? k = some lb ∧
          lb.payload.conditions = some
            [{ field := some "q4", operator := some "contains", value := some tv,
               jumpTo := some qb.uuid }]) := by
  have h := (c5_dynamic_question_sets "base" "Challenge" "INPUT_MULTIPLE_CHOICE" "q4"
    [exSetA, exSetB]).1 (by
      intro os ho
      rcases List.mem_cons.mp ho with h | h
      · subst h
        exact ⟨rfl, [{ text := "X" }], rfl, by simp⟩
      · rcases List.mem_cons.mp h with h | h
        · subst h
          exact ⟨rfl, [{ text := "Y" }], rfl, by simp⟩
        · simp at h) (by simp)
  exact h

/-! ## Cycle detector: equivalence with the exhaustive walk -/

theorem checkList_cons (blocks : List Block) (fuel : Nat) (v : String) (rest : List String)
    (r0 : List String × Bool) :
    checkList blocks fuel (v :: rest) r0 =
      checkList blocks fuel rest
        (if r0.2 then r0 else checkCircular blocks fuel v r0.1) := rfl

theorem walkList_cons (blocks : List Block) (fuel : Nat) (v : String) (rest : List String)
    (r0 : List String × Bool) :
    walkList blocks fuel (v :: rest) r0 =
      walkList blocks fuel rest
        ((walk blocks fuel v r0.1).1, r0.2 || (walk blocks fuel v r0.1).2) := rfl

theorem checkCircular_succ (blocks : List Block) (fuel : Nat) (u : String)
    (visited : List String) :
    checkCircular blocks (fuel + 1) u visited =
      if visited.contains u then (visited, true)
      else checkList blocks fuel (circSuccs blocks u) (u :: visited, false) := rfl

theorem walk_succ (blocks : List Block) (fuel : Nat) (u : String) (visited : List String) :
    walk blocks (fuel + 1) u visited =
      if visited.contains u then (visited, true)
      else walkList blocks fuel (circSuccs blocks u) (u :: visited, false) := rfl

/-- The short-circuiting `checkCircular` finds a revisit exactly when the
exhaustive `walk` does, and when there is no revisit the two traversals
agree entirely. -/
theorem checkCircular_walk (blocks : List Block) : ∀ fuel : Nat,
    (∀ (l : List String) (rC rW : List String × Bool), rC.2 = rW.2 →
      (rW.2 = false → rC = rW) →
      (checkList blocks fuel l rC).2 = (walkList blocks fuel l rW).2 ∧
        ((walkList blocks fuel l rW).2 = false →
          checkList blocks fuel l rC = walkList blocks fuel l rW)) ∧
    (∀ (u : String) (visited : List String),
      (checkCircular blocks fuel u visited).2 = (walk blocks fuel u visited).2 ∧
        ((walk blocks fuel u visited).2 = false →
          checkCircular blocks fuel u visited = walk blocks fuel u visited)) := by
  have step : ∀ fuel : Nat,
      (∀ (u : String) (visited : List String),
        (checkCircular blocks fuel u visited).2 = (walk blocks fuel u visited).2 ∧
          ((walk blocks fuel u visited).2 = false →
            checkCircular blocks fuel u visited = walk blocks fuel u visited)) →
      (∀ (l : List String) (rC rW : List String × Bool), rC.2 = rW.2 →
        (rW.2 = false → rC = rW) →
        (checkList blocks fuel l rC).2 = (walkList blocks fuel l rW).2 ∧
          ((walkList blocks fuel l rW).2 = false →
            checkList blocks fuel l rC = walkList blocks fuel l rW)) := by
    intro fuel T l
    induction l with
    | nil => intro rC rW h1 h2; exact ⟨h1, h2⟩
    | cons v rest ih =>
      intro rC rW h1 h2
      rw [checkList_cons, walkList_cons]
      rcases hw : rW.2 with _ | _
      · have heq : rC = rW := h2 hw
        subst heq
        simp only [hw, Bool.false_or, Bool.false_eq_true, if_false]
        obtain ⟨t1, t2⟩ := T v rC.1
        exact ih _ _ t1 t2
      · have hc : rC.2 = true := h1.trans hw
        simp only [hw, hc, Bool.true_or, if_true]
        exact ih rC ((walk blocks fuel v rW.1).1, true) (by simp [hc]) (by simp)
  intro fuel
  induction fuel with
  | zero =>
    have T : ∀ (u : String) (visited : List String),
        (checkCircular blocks 0 u visited).2 = (walk blocks 0 u visited).2 ∧
          ((walk blocks 0 u visited).2 = false →
            checkCircular blocks 0 u visited = walk blocks 0 u visited) := by
      intro u visited
      exact ⟨rfl, fun _ => rfl⟩
    exact ⟨step 0 T, T⟩
  | succ fuel ih =>
    have T : ∀ (u : String) (visited : List String),
        (checkCircular blocks (fuel + 1) u visited).2 = (walk blocks (fuel + 1) u visited).2 ∧
          ((walk blocks (fuel + 1) u visited).2 = false →
            checkCircular blocks (fuel + 1) u visited = walk blocks (fuel + 1) u visited) := by
      intro u visited
      rw [checkCircular_succ, walk_succ]
      rcases hm : visited.contains u with _ | _
      · simp only [hm, Bool.false_eq_true, if_false]
        exact step fuel ih.2 (circSuccs blocks u) (u :: visited, false)
          (u :: visited, false) rfl (fun _ => rfl)
      · simp [hm]
    exact ⟨step (fuel + 1) T, T⟩

/-! ## Invariance of the traversals under payload-preserving block maps -/

theorem lookupBlock_map (g : Block → Block) (hu : ∀ b, (g b).uuid = b.uuid)
    (blocks : List Block) (u : String) :
    lookupBlock (blocks.map g) u = (lookupBlock blocks u).map g := by
  have key : ∀ (bs : List Block) (acc : Option Block),
      List.foldl (fun acc b => if b.uuid = u then some b else acc) (acc.map g) (bs.map g) =
        (List.foldl (fun acc b => if b.uuid = u then some b else acc) acc bs).map g := by
    intro bs
    induction bs with
    | nil => intro acc; rfl
    | cons b rest ih =>
      intro acc
      simp only [List.map_cons, List.foldl_cons, hu b]
      by_cases h : b.uuid = u
      · rw [if_pos h, if_pos h]
        simpa using ih (some b)
      · rw [if_neg h, if_neg h]
        exact ih acc
  simpa [lookupBlock] using key blocks none

theorem hasBlock_map (g : Block → Block) (hu : ∀ b, (g b).uuid = b.uuid)
    (blocks : List Block) (u : String) :
    hasBlock (blocks.map g) u = hasBlock blocks u := by
  rw [hasBlock, hasBlock, lookupBlock_map g hu]
  cases lookupBlock blocks u <;> rfl

theorem circSuccs_map (g : Block → Block) (hu : ∀ b, (g b).uuid = b.uuid)
    (hc : ∀ b, blockCircSuccs (g b) = blockCircSuccs b)
    (blocks : List Block) (u : String) :
    circSuccs (blocks.map g) u = circSuccs blocks u := by
  rw [circSuccs, circSuccs, lookupBlock_map g hu]
  cases lookupBlock blocks u with
  | none => rfl
  | some b => exact hc b

theorem checkCircular_congr (blocks1 blocks2 : List Block)
    (h : ∀ u, circSuccs blocks1 u = circSuccs blocks2 u) : ∀ (fuel : Nat),
    (∀ (l : List String) (r0 : List String × Bool),
      checkList blocks1 fuel l r0 = checkList blocks2 fuel l r0) ∧
    (∀ (u : String) (visited : List String),
      checkCircular blocks1 fuel u visited = checkCircular blocks2 fuel u visited) := by
  have step : ∀ fuel : Nat,
      (∀ (u : String) (visited : List String),
        checkCircular blocks1 fuel u visited = checkCircular blocks2 fuel u visited) →
      ∀ (l : List String) (r0 : List String × Bool),
        checkList blocks1 fuel l r0 = checkList blocks2 fuel l r0 := by
    intro fuel T l
    induction l with
    | nil => intro r0; rfl
    | cons v rest ih =>
      intro r0
      rw [checkList_cons, checkList_cons, T v r0.1]
      exact ih _
  intro fuel
  induction fuel with
  | zero => exact ⟨step 0 (fun _ _ => rfl), fun _ _ => rfl⟩
  | succ fuel ih =>
    have T : ∀ (u : String) (visited : List String),
        checkCircular blocks1 (fuel + 1) u visited =
          checkCircular blocks2 (fuel + 1) u visited := by
      intro u visited
      rw [checkCircular_succ, checkCircular_succ, h u]
      rcases hm : visited.contains u with _ | _
      · simp only [hm, Bool.false_eq_true, if_false]
        exact step fuel ih.2 _ _
      · simp [hm]
    exact ⟨step (fuel + 1) T, T⟩

theorem logicBlocksOf_map (g : Block → Block) (ht : ∀ b, (g b).type = b.type)
    (blocks : List Block) :
    logicBlocksOf (blocks.map g) = (logicBlocksOf blocks).map g := by
  rw [logicBlocksOf, logicBlocksOf, List.filter_map]
  congr 1
  apply List.filter_congr
  intro b _
  simp [Function.comp, ht b]

theorem allCondTargets_map (g : Block → Block)
    (ha : ∀ b, blockAllTargets (g b) = blockAllTargets b) (blocks : List Block) :
    allCondTargets (blocks.map g) = allCondTargets blocks := by
  rw [allCondTargets, allCondTargets, List.flatMap_map]
  congr 1
  apply List.flatMap_congr
  intro b _
  exact ha b

/-- C7: the cycle check emits, for each logic block as an independent root
(with a freshly reset empty visited list), a WARNING naming that root
exactly when the exhaustive depth-first walk along conditional edges from
that root revisits a node; it never follows default edges (erasing every
`defaultJumpTo` leaves the warnings unchanged); and when no root's walk
revisits a node there are zero cycle warnings. -/
theorem c7_cycle_detector (blocks : List Block) :
    (cycleWarnings blocks = (logicBlocksOf blocks).filterMap fun lb =>
      if (walk blocks (circFuel blocks) lb.uuid []).2 then some (circularMsg lb.uuid)
      else none) ∧
    (cycleWarnings (blocks.map eraseDefault) = cycleWarnings blocks) ∧
    ((∀ lb ∈ logicBlocksOf blocks, (walk blocks (circFuel blocks) lb.uuid []).2 = false) →
      cycleWarnings blocks = []) := by
  have hflag : ∀ u, (checkCircular blocks (circFuel blocks) u []).2 =
      (walk blocks (circFuel blocks) u []).2 :=
    fun u => ((checkCircular_walk blocks (circFuel blocks)).2 u []).1
  have part1 : cycleWarnings blocks = (logicBlocksOf blocks).filterMap fun lb =>
      if (walk blocks (circFuel blocks) lb.uuid []).2 then some (circularMsg lb.uuid)
      else none := by
    rw [cycleWarnings]
    apply List.filterMap_congr
    intro lb _
    rw [hflag lb.uuid]
  refine ⟨part1, ?_, ?_⟩
  · have hcs : ∀ u, circSuccs (blocks.map eraseDefault) u = circSuccs blocks u :=
      circSuccs_map eraseDefault (fun _ => rfl) (fun _ => rfl) blocks
    have hfuel : circFuel (blocks.map eraseDefault) = circFuel blocks := by
      rw [circFuel, circFuel, allCondTargets_map eraseDefault (fun _ => rfl)]
    have hcc : ∀ fuel u visited, checkCircular (blocks.map eraseDefault) fuel u visited =
        checkCircular blocks fuel u visited :=
      fun fuel u visited => (checkCircular_congr _ _ hcs fuel).2 u visited
    rw [cycleWarnings, cycleWarnings,
      logicBlocksOf_map eraseDefault (fun _ => rfl), List.filterMap_map]
    apply List.filterMap_congr
    intro lb _
    simp only [Function.comp, hfuel, hcc]
    rfl
  · intro hnone
    rw [part1]
    apply List.filterMap_eq_nil_iff.mpr
    intro lb hlb
    rw [hnone lb hlb]
    rfl

/-- Witness for C7: two logic blocks with the back-edge removed produce zero
cycle warnings, and the equivalences hold at that input. -/
theorem c7_cycle_detector_witness :
    (cycleWarnings [exCycleL1, exNoCycleL2] =
      (logicBlocksOf [exCycleL1, exNoCycleL2]).filterMap fun lb =>
        if (walk [exCycleL1, exNoCycleL2] (circFuel [exCycleL1, exNoCycleL2]) lb.uuid []).2
        then some (circularMsg lb.uuid) else none) ∧
    (cycleWarnings ([exCycleL1, exNoCycleL2].map eraseDefault) =
      cycleWarnings [exCycleL1, exNoCycleL2]) ∧
    cycleWarnings [exCycleL1, exNoCycleL2] = [] := by
  have h := c7_cycle_detector [exCycleL1, exNoCycleL2]
  exact ⟨h.1, h.2.1, h.2.2 (by decide)⟩

/-! ## Reachability traversal: soundness and completeness -/

theorem traverseList_cons (blocks : List Block) (fuel : Nat) (v : String)
    (rest : List String) (visited : List String) :
    traverseList blocks fuel (v :: rest) visited =
      traverseList blocks fuel rest (traverseBlocks blocks fuel v visited) := rfl

theorem traverseBlocks_succ (blocks : List Block) (fuel : Nat) (u : String)
    (visited : List String) :
    traverseBlocks blocks (fuel + 1) u visited =
      if visited.contains u || !(hasBlock blocks u) then visited
      else traverseList blocks fuel (succs blocks u) (u :: visited) := rfl

theorem filter_length_mono {α : Type} {p q : α → Bool} (l : List α)
    (h : ∀ x ∈ l, p x = true → q x = true) :
    (l.filter p).length ≤ (l.filter q).length := by
  induction l with
  | nil => simp
  | cons a t ih =>
    have iht := ih (fun x hx => h x (List.mem_cons_of_mem a hx))
    by_cases hp : p a = true
    · have hq := h a (List.mem_cons_self a t) hp
      simp only [List.filter_cons, hp, hq, if_true, List.length_cons]
      omega
    · have hp' : p a = false := by
        cases hpa : p a
        · rfl
        · exact absurd hpa hp
      simp only [List.filter_cons, hp', Bool.false_eq_true, if_false]
      rcases hq : q a with _ | _
      · simpa [hq] using iht
      · simp only [hq, if_true, List.length_cons]
        omega

theorem filter_length_lt {α : Type} {p q : α → Bool} (l : List α)
    (h : ∀ x ∈ l, p x = true → q x = true) (x : α) (hx : x ∈ l)
    (hqx : q x = true) (hpx : p x = false) :
    (l.filter p).length < (l.filter q).length := by
  induction l with
  | nil => simp at hx
  | cons a t ih =>
    have hmono : (t.filter p).length ≤ (t.filter q).length :=
      filter_length_mono t (fun y hy => h y (List.mem_cons_of_mem a hy))
    rcases List.mem_cons.mp hx with heq | hmem
    · subst heq
      simp only [List.filter_cons, hpx, hqx, Bool.false_eq_true, if_false, if_true,
        List.length_cons]
      omega
    · have iht := ih (fun y hy => h y (List.mem_cons_of_mem a hy)) hmem
      by_cases hpa : p a = true
      · have hqa := h a (List.mem_cons_self a t) hpa
        simp only [List.filter_cons, hpa, hqa, if_true, List.length_cons]
        omega
      · have hpa' : p a = false := by
          cases hpaa : p a
          · rfl
          · exact absurd hpaa hpa
        simp only [List.filter_cons, hpa', Bool.false_eq_true, if_false]
        rcases hqa : q a with _ | _
        · exact iht
        · simp only [if_true, List.length_cons]
          omega

theorem lookupBlock_isSome_iff (blocks : List Block) (u : String) :
    (lookupBlock blocks u).isSome = true ↔ ∃ b ∈ blocks, b.uuid = u := by
  have key : ∀ (bs : List Block) (acc : Option Block),
      (List.foldl (fun acc b => if b.uuid = u then some b else acc) acc bs).isSome = true ↔
        acc.isSome = true ∨ ∃ b ∈ bs, b.uuid = u := by
    intro bs
    induction bs with
    | nil => intro acc; simp
    | cons b rest ih =>
      intro acc
      simp only [List.foldl_cons]
      by_cases h : b.uuid = u
      · rw [if_pos h]
        rw [ih (some b)]
        simp [h]
      · rw [if_neg h]
        rw [ih acc]
        constructor
        · rintro (ha | hb)
          · exact Or.inl ha
          · exact Or.inr (by
              obtain ⟨c, hc1, hc2⟩ := hb
              exact ⟨c, List.mem_cons_of_mem b hc1, hc2⟩)
        · rintro (ha | ⟨c, hc1, hc2⟩)
          · exact Or.inl ha
          · rcases List.mem_cons.mp hc1 with hcb | hcr
            · subst hcb; exact absurd hc2 h
            · exact Or.inr ⟨c, hcr, hc2⟩
  simpa [lookupBlock] using key blocks none

theorem hasBlock_iff (blocks : List Block) (u : String) :
    hasBlock blocks u = true ↔ ∃ b ∈ blocks, b.uuid = u := by
  rw [hasBlock]
  exact lookupBlock_isSome_iff blocks u

theorem hasBlock_of_mem (blocks : List Block) (b : Block) (hb : b ∈ blocks) :
    hasBlock blocks b.uuid = true :=
  (hasBlock_iff blocks b.uuid).mpr ⟨b, hb, rfl⟩

theorem contains_false_of_not_mem {l : List String} {a : String} (h : a ∉ l) :
    l.contains a = false := by
  rcases hc : l.contains a with _ | _
  · rfl
  · exact absurd (List.mem_of_elem_eq_true hc) h

theorem unvisitedCount_le_of_subset (blocks : List Block)
    (v1 v2 : List String) (h : v1 ⊆ v2) :
    unvisitedCount blocks v2 ≤ unvisitedCount blocks v1 := by
  apply filter_length_mono
  intro x _ hx
  simp only [Bool.not_eq_true'] at hx ⊢
  apply contains_false_of_not_mem
  intro hmem
  have : v2.contains x = true := List.elem_eq_true_of_mem (h hmem)
  rw [this] at hx
  exact absurd hx (by simp)

theorem unvisitedCount_lt (blocks : List Block) (visited : List String) (u : String)
    (hhas : hasBlock blocks u = true) (hnc : visited.contains u = false) :
    unvisitedCount blocks (u :: visited) < unvisitedCount blocks visited := by
  have hmono : ∀ x ∈ (blocks.map Block.uuid).dedup,
      (fun w => !((u :: visited).contains w)) x = true →
        (fun w => !(visited.contains w)) x = true := by
    intro x _ hx
    simp only [Bool.not_eq_true'] at hx ⊢
    apply contains_false_of_not_mem
    intro hmem
    have : (u :: visited).contains x = true :=
      List.elem_eq_true_of_mem (List.mem_cons_of_mem u hmem)
    rw [this] at hx
    exact absurd hx (by simp)
  have humem : u ∈ (blocks.map Block.uuid).dedup := by
    obtain ⟨b, hb, hbu⟩ := (hasBlock_iff blocks u).mp hhas
    exact List.mem_dedup.mpr (List.mem_map.mpr ⟨b, hb, hbu⟩)
  have hq : (fun w => !(visited.contains w)) u = true := by
    simp only [Bool.not_eq_true']
    exact hnc
  have hp : (fun w => !((u :: visited).contains w)) u = false := by
    have : (u :: visited).contains u = true :=
      List.elem_eq_true_of_mem (List.mem_cons_self u visited)
    simp [this]
  exact filter_length_lt _ hmono u humem hq hp

theorem unvisitedCount_lt_reachFuel (blocks : List Block) :
    unvisitedCount blocks [] < reachFuel blocks := by
  have h1 : unvisitedCount blocks [] ≤ ((blocks.map Block.uuid).dedup).length :=
    List.length_filter_le _ _
  have h2 : ((blocks.map Block.uuid).dedup).length ≤ (blocks.map Block.uuid).length :=
    (List.dedup_sublist _).length_le
  have h3 : (blocks.map Block.uuid).length = blocks.length := List.length_map _ _
  rw [reachFuel]
  omega

theorem traverse_subset (blocks : List Block) : ∀ fuel : Nat,
    (∀ (l : List String) (visited : List String),
      visited ⊆ traverseList blocks fuel l visited) ∧
    (∀ (u : String) (visited : List String),
      visited ⊆ traverseBlocks blocks fuel u visited) := by
  have step : ∀ fuel : Nat,
      (∀ (u : String) (visited : List String),
        visited ⊆ traverseBlocks blocks fuel u visited) →
      ∀ (l : List String) (visited : List String),
        visited ⊆ traverseList blocks fuel l visited := by
    intro fuel T l
    induction l with
    | nil => intro visited; exact List.Subset.refl visited
    | cons v rest ih =>
      intro visited
      rw [traverseList_cons]
      exact (T v visited).trans (ih _)
  intro fuel
  induction fuel with
  | zero =>
    have T : ∀ (u : String) (visited : List String),
        visited ⊆ traverseBlocks blocks 0 u visited :=
      fun u visited => List.Subset.refl visited
    exact ⟨step 0 T, T⟩
  | succ fuel ih =>
    have T : ∀ (u : String) (visited : List String),
        visited ⊆ traverseBlocks blocks (fuel + 1) u visited := by
      intro u visited
      rw [traverseBlocks_succ]
      rcases hc : (visited.contains u || !(hasBlock blocks u)) with _ | _
      · simp only [hc, Bool.false_eq_true, if_false]
        exact (List.subset_cons_self u visited).trans (step fuel ih.2 _ _)
      · simp only [hc, if_true]
        exact List.Subset.refl visited
    exact ⟨step (fuel + 1) T, T⟩

theorem traverse_sound (blocks : List Block) : ∀ fuel : Nat,
    (∀ (l : List String) (visited : List String) (x : String),
      x ∈ traverseList blocks fuel l visited →
      x ∈ visited ∨ ∃ v ∈ l, hasBlock blocks x = true ∧ ReachableFrom blocks v x) ∧
    (∀ (u : String) (visited : List String) (x : String),
      x ∈ traverseBlocks blocks fuel u visited →
      x ∈ visited ∨ (hasBlock blocks x = true ∧ ReachableFrom blocks u x)) := by
  have step : ∀ fuel : Nat,
      (∀ (u : String) (visited : List String) (x : String),
        x ∈ traverseBlocks blocks fuel u visited →
        x ∈ visited ∨ (hasBlock blocks x = true ∧ ReachableFrom blocks u x)) →
      ∀ (l : List String) (visited : List String) (x : String),
        x ∈ traverseList blocks fuel l visited →
        x ∈ visited ∨ ∃ v ∈ l, hasBlock blocks x = true ∧ ReachableFrom blocks v x := by
    intro fuel T l
    induction l with
    | nil => intro visited x hx; exact Or.inl hx
    | cons v rest ih =>
      intro visited x hx
      rw [traverseList_cons] at hx
      rcases ih _ x hx with h | ⟨w, hw, h⟩
      · rcases T v visited x h with h' | h'
        · exact Or.inl h'
        · exact Or.inr ⟨v, List.mem_cons_self v rest, h'⟩
      · exact Or.inr ⟨w, List.mem_cons_of_mem v hw, h⟩
  intro fuel
  induction fuel with
  | zero =>
    have T : ∀ (u : String) (visited : List String) (x : String),
        x ∈ traverseBlocks blocks 0 u visited →
        x ∈ visited ∨ (hasBlock blocks x = true ∧ ReachableFrom blocks u x) :=
      fun u visited x hx => Or.inl hx
    exact ⟨step 0 T, T⟩
  | succ fuel ih =>
    have T : ∀ (u : String) (visited : List String) (x : String),
        x ∈ traverseBlocks blocks (fuel + 1) u visited →
        x ∈ visited ∨ (hasBlock blocks x = true ∧ ReachableFrom blocks u x) := by
      intro u visited x hx
      rw [traverseBlocks_succ] at hx
      rcases hc : (visited.contains u || !(hasBlock blocks u)) with _ | _
      · rw [hc] at hx
        simp only [Bool.false_eq_true, if_false] at hx
        have hcu : visited.contains u = false ∧ (!(hasBlock blocks u)) = false := by
          constructor
          · rcases h1 : visited.contains u with _ | _
            · rfl
            · rw [h1] at hc; simp at hc
          · rcases h2 : (!(hasBlock blocks u)) with _ | _
            · rfl
            · rw [h2] at hc; simp at hc
        have hhasu : hasBlock blocks u = true := by
          rcases hh : hasBlock blocks u with _ | _
          · rw [hh] at hcu; simp at hcu
          · rfl
        rcases step fuel ih.2 _ _ x hx with h | ⟨v, hv, hhas, hr⟩
        · rcases List.mem_cons.mp h with h' | h'
          · subst h'
            exact Or.inr ⟨hhasu, Relation.ReflTransGen.refl⟩
          · exact Or.inl h'
        · exact Or.inr ⟨hhas, Relation.ReflTransGen.head hv hr⟩
      · rw [hc] at hx
        simp only [if_true] at hx
        exact Or.inl hx
    exact ⟨step (fuel + 1) T, T⟩

theorem traverse_complete (blocks : List Block) : ∀ fuel : Nat,
    (∀ (l : List String) (visited : List String), unvisitedCount blocks visited < fuel →
      (∀ v ∈ l, hasBlock blocks v = true → v ∈ traverseList blocks fuel l visited) ∧
      (∀ x ∈ traverseList blocks fuel l visited, x ∉ visited →
        ∀ y ∈ succs blocks x, hasBlock blocks y = true →
          y ∈ traverseList blocks fuel l visited)) ∧
    (∀ (u : String) (visited : List String), unvisitedCount blocks visited < fuel →
      (hasBlock blocks u = true → u ∈ traverseBlocks blocks fuel u visited) ∧
      (∀ x ∈ traverseBlocks blocks fuel u visited, x ∉ visited →
        ∀ y ∈ succs blocks x, hasBlock blocks y = true →
          y ∈ traverseBlocks blocks fuel u visited)) := by
  have step : ∀ fuel : Nat,
      (∀ (u : String) (visited : List String), unvisitedCount blocks visited < fuel →
        (hasBlock blocks u = true → u ∈ traverseBlocks blocks fuel u visited) ∧
        (∀ x ∈ traverseBlocks blocks fuel u visited, x ∉ visited →
          ∀ y ∈ succs blocks x, hasBlock blocks y = true →
            y ∈ traverseBlocks blocks fuel u visited)) →
      ∀ (l : List String) (visited : List String), unvisitedCount blocks visited < fuel →
        (∀ v ∈ l, hasBlock blocks v = true → v ∈ traverseList blocks fuel l visited) ∧
        (∀ x ∈ traverseList blocks fuel l visited, x ∉ visited →
          ∀ y ∈ succs blocks x, hasBlock blocks y = true →
            y ∈ traverseList blocks fuel l visited) := by
    intro fuel T l
    induction l with
    | nil =>
      intro visited hf
      constructor
      · intro v hv; simp at hv
      · intro x hx hxnv; exact absurd hx hxnv
    | cons v rest ih =>
      intro visited hf
      have hsub1 : visited ⊆ traverseBlocks blocks fuel v visited :=
        (traverse_subset blocks fuel).2 v visited
      have hf1 : unvisitedCount blocks (traverseBlocks blocks fuel v visited) < fuel := by
        have := unvisitedCount_le_of_subset blocks visited _ hsub1
        omega
      obtain ⟨ihfirst, ihsecond⟩ := ih (traverseBlocks blocks fuel v visited) hf1
      obtain ⟨tfirst, tsecond⟩ := T v visited hf
      have hsubL : traverseBlocks blocks fuel v visited ⊆
          traverseList blocks fuel rest (traverseBlocks blocks fuel v visited) :=
        (traverse_subset blocks fuel).1 rest _
      rw [traverseList_cons]
      constructor
      · intro w hw hhw
        rcases List.mem_cons.mp hw with heq | hmem
        · subst heq
          exact hsubL (tfirst hhw)
        · exact ihfirst w hmem hhw
      · intro x hx hxnv y hy hhy
        by_cases hxR1 : x ∈ traverseBlocks blocks fuel v visited
        · exact hsubL (tsecond x hxR1 hxnv y hy hhy)
        · exact ihsecond x hx hxR1 y hy hhy
  intro fuel
  induction fuel with
  | zero =>
    have T : ∀ (u : String) (visited : List String), unvisitedCount blocks visited < 0 →
        (hasBlock blocks u = true → u ∈ traverseBlocks blocks 0 u visited) ∧
        (∀ x ∈ traverseBlocks blocks 0 u visited, x ∉ visited →
          ∀ y ∈ succs blocks x, hasBlock blocks y = true →
            y ∈ traverseBlocks blocks 0 u visited) :=
      fun u visited hf => absurd hf (Nat.not_lt_zero _)
    exact ⟨step 0 T, T⟩
  | succ fuel ih =>
    have T : ∀ (u : String) (visited : List String),
        unvisitedCount blocks visited < fuel + 1 →
        (hasBlock blocks u = true → u ∈ traverseBlocks blocks (fuel + 1) u visited) ∧
        (∀ x ∈ traverseBlocks blocks (fuel + 1) u visited, x ∉ visited →
          ∀ y ∈ succs blocks x, hasBlock blocks y = true →
            y ∈ traverseBlocks blocks (fuel + 1) u visited) := by
      intro u visited hf
      rw [traverseBlocks_succ]
      rcases hc : (visited.contains u || !(hasBlock blocks u)) with _ | _
      · simp only [hc, Bool.false_eq_true, if_false]
        have hcu : visited.contains u = false := by
          rcases h1 : visited.contains u with _ | _
          · rfl
          · rw [h1] at hc; simp at hc
        have hhasu : hasBlock blocks u = true := by
          rcases hh : hasBlock blocks u with _ | _
          · rw [hh] at hc; simp at hc
          · rfl
        have hflt : unvisitedCount blocks (u :: visited) < fuel := by
          have h1 := unvisitedCount_lt blocks visited u hhasu hcu
          omega
        obtain ⟨lfirst, lsecond⟩ := step fuel ih.2 (succs blocks u) (u :: visited) hflt
        have hsub : (u :: visited) ⊆
            traverseList blocks fuel (succs blocks u) (u :: visited) :=
          (traverse_subset blocks fuel).1 _ _
        constructor
        · intro _
          exact hsub (List.mem_cons_self u visited)
        · intro x hx hxnv y hy hhy
          by_cases hxu : x = u
          · subst hxu
            exact lfirst y hy hhy
          · refine lsecond x hx ?_ y hy hhy
            intro hmem
            rcases List.mem_cons.mp hmem with h | h
            · exact hxu h
            · exact hxnv h
      · simp only [hc, if_true]
        constructor
        · intro hhasu
          have hcu : visited.contains u = true := by
            rcases Bool.or_eq_true_iff.mp hc with h | h
            · exact h
            · rw [hhasu] at h; simp at h
          exact List.mem_of_elem_eq_true hcu
        · intro x hx hxnv
          exact absurd hx hxnv
    exact ⟨step (fuel + 1) T, T⟩

theorem enumFrom_snd_mem {α : Type} :
    ∀ (l : List α) (n : Nat) (p : Nat × α), p ∈ List.enumFrom n l → p.2 ∈ l := by
  intro l
  induction l with
  | nil => intro n p hp; simp at hp
  | cons a t ih =>
    intro n p hp
    rcases List.mem_cons.mp hp with h | h
    · subst h
      exact List.mem_cons_self a t
    · exact List.mem_cons_of_mem a (ih (n + 1) p h)

/-- The reachable set computed by the traversal is exactly declarative
reachability along conditional and default edges, restricted to registered
uuids. -/
theorem reachableUuids_iff (blocks : List Block) (b0 : Block) (rest : List Block)
    (hb : blocks = b0 :: rest) (u : String) :
    u ∈ reachableUuids blocks ↔
      hasBlock blocks u = true ∧ ReachableFrom blocks b0.uuid u := by
  have hfuel := unvisitedCount_lt_reachFuel blocks
  have hre : reachableUuids blocks =
      traverseBlocks blocks (reachFuel blocks) b0.uuid [] := by
    rw [hb, reachableUuids]
  constructor
  · intro hu
    rw [hre] at hu
    rcases (traverse_sound blocks (reachFuel blocks)).2 b0.uuid [] u hu with h | h
    · simp at h
    · exact h
  · rintro ⟨hhas, hr⟩
    obtain ⟨hstart, hclosed⟩ :=
      (traverse_complete blocks (reachFuel blocks)).2 b0.uuid [] hfuel
    rw [hre]
    have hr' : Relation.ReflTransGen (condDefaultEdge blocks) b0.uuid u := hr
    clear hr
    induction hr' with
    | refl => exact hstart hhas
    | @tail b c hab hbc ihr =>
      have hhasb : hasBlock blocks b = true := by
        rw [hasBlock]
        rcases hlb : lookupBlock blocks b with _ | blk
        · have : succs blocks b = [] := by rw [succs, hlb]
          rw [condDefaultEdge, this] at hbc
          simp at hbc
        · rfl
      have hbR : b ∈ traverseBlocks blocks (reachFuel blocks) b0.uuid [] := ihr hhasb
      exact hclosed b hbR (by simp) c hbc hhas

open scoped Classical

/-- C2 amended: the reachability analysis visits exactly the blocks
reachable from the entry block by following conditional (`jumpTo`) and
default (`defaultJumpTo`) edges of logic blocks — no sequential edges — and
emits exactly one "may be unreachable" WARNING for each non-entry block
whose uuid is not so reachable, and none for a reachable one. -/
theorem c2_reachability (blocks : List Block) (b0 : Block) (rest : List Block)
    (hb : blocks = b0 :: rest) :
    (∀ u, u ∈ reachableUuids blocks ↔
      hasBlock blocks u = true ∧ ReachableFrom blocks b0.uuid u) ∧
    unreachableWarnings blocks = blocks.enum.filterMap (fun p =>
      if p.1 ≠ 0 ∧ ¬ ReachableFrom blocks b0.uuid p.2.uuid then
        some (unreachableMsg p.2)
      else none) := by
  refine ⟨fun u => reachableUuids_iff blocks b0 rest hb u, ?_⟩
  rw [unreachableWarnings]
  apply List.filterMap_congr
  intro p hp
  have hp2 : p.2 ∈ blocks := by
    have : p ∈ List.enumFrom 0 blocks := by simpa [List.enum] using hp
    exact enumFrom_snd_mem blocks 0 p this
  have hhas : hasBlock blocks p.2.uuid = true := hasBlock_of_mem blocks p.2 hp2
  by_cases hr : ReachableFrom blocks b0.uuid p.2.uuid
  · have hmem : p.2.uuid ∈ reachableUuids blocks :=
      (reachableUuids_iff blocks b0 rest hb p.2.uuid).mpr ⟨hhas, hr⟩
    have hcont : (reachableUuids blocks).contains p.2.uuid = true :=
      List.elem_eq_true_of_mem hmem
    rw [hcont]
    simp [hr]
  · have hcont : (reachableUuids blocks).contains p.2.uuid = false := by
      apply contains_false_of_not_mem
      intro hmem
      exact hr ((reachableUuids_iff blocks b0 rest hb p.2.uuid).mp hmem).2
    rw [hcont]
    by_cases h0 : p.1 = 0
    · simp [h0]
    · have hne : (p.1 != 0) = true := by
        simp [bne, h0]
      simp [hne, h0, hr]

theorem condTargets_eraseValue (cs : List LogicCond) :
    condTargets (cs.map eraseCondValue) = condTargets cs := by
  rw [condTargets, condTargets, List.filterMap_map]
  apply List.filterMap_congr
  intro c _
  rfl

theorem blockSuccs_eraseValues (b : Block) :
    blockSuccs (eraseCondValues b) = blockSuccs b := by
  rw [blockSuccs, blockSuccs]
  simp only [eraseCondValues]
  rcases hc : b.payload.conditions with _ | cs
  · simp [hc]
  · simp [hc, condTargets_eraseValue]

theorem blockCircSuccs_eraseValues (b : Block) :
    blockCircSuccs (eraseCondValues b) = blockCircSuccs b := by
  rw [blockCircSuccs, blockCircSuccs]
  simp only [eraseCondValues]
  rcases hc : b.payload.conditions with _ | cs
  · simp [hc]
  · simp [hc, condTargets_eraseValue]

theorem blockAllTargets_eraseValues (b : Block) :
    blockAllTargets (eraseCondValues b) = blockAllTargets b := by
  rw [blockAllTargets, blockAllTargets]
  simp only [eraseCondValues]
  rcases hc : b.payload.conditions with _ | cs
  · simp [hc]
  · simp [hc, condTargets_eraseValue]

theorem succs_eraseValues (blocks : List Block) (u : String) :
    succs (blocks.map eraseCondValues) u = succs blocks u := by
  rw [succs, succs, lookupBlock_map eraseCondValues (fun _ => rfl)]
  rcases lookupBlock blocks u with _ | b
  · rfl
  · exact blockSuccs_eraseValues b

theorem traverseBlocks_congr (blocks1 blocks2 : List Block)
    (hs : ∀ u, succs blocks1 u = succs blocks2 u)
    (hh : ∀ u, hasBlock blocks1 u = hasBlock blocks2 u) : ∀ fuel : Nat,
    (∀ (l : List String) (visited : List String),
      traverseList blocks1 fuel l visited = traverseList blocks2 fuel l visited) ∧
    (∀ (u : String) (visited : List String),
      traverseBlocks blocks1 fuel u visited = traverseBlocks blocks2 fuel u visited) := by
  have step : ∀ fuel : Nat,
      (∀ (u : String) (visited : List String),
        traverseBlocks blocks1 fuel u visited = traverseBlocks blocks2 fuel u visited) →
      ∀ (l : List String) (visited : List String),
        traverseList blocks1 fuel l visited = traverseList blocks2 fuel l visited := by
    intro fuel T l
    induction l with
    | nil => intro visited; rfl
    | cons v rest ih =>
      intro visited
      rw [traverseList_cons, traverseList_cons, T v visited]
      exact ih _
  intro fuel
  induction fuel with
  | zero => exact ⟨step 0 (fun _ _ => rfl), fun _ _ => rfl⟩
  | succ fuel ih =>
    have T : ∀ (u : String) (visited : List String),
        traverseBlocks blocks1 (fuel + 1) u visited =
          traverseBlocks blocks2 (fuel + 1) u visited := by
      intro u visited
      rw [traverseBlocks_succ, traverseBlocks_succ, hh u, hs u]
      rcases hc : (visited.contains u || !(hasBlock blocks2 u)) with _ | _
      · simp only [hc, Bool.false_eq_true, if_false]
        exact step fuel ih.2 _ _
      · simp [hc]
    exact ⟨step (fuel + 1) T, T⟩

theorem logicBlockIssues_eraseValues (blocks : List Block) (lb : Block) :
    logicBlockIssues (blocks.map eraseCondValues) (eraseCondValues lb) =
      logicBlockIssues blocks lb := by
  have hhb : ∀ u, hasBlock (blocks.map eraseCondValues) u = hasBlock blocks u :=
    hasBlock_map eraseCondValues (fun _ => rfl) blocks
  have e1 : (eraseCondValues lb).payload.triggerField = lb.payload.triggerField := rfl
  have e2 : (eraseCondValues lb).payload.defaultJumpTo = lb.payload.defaultJumpTo := rfl
  have e3 : (eraseCondValues lb).payload.conditions =
      Option.map (List.map eraseCondValue) lb.payload.conditions := rfl
  have e4 : (eraseCondValues lb).uuid = lb.uuid := rfl
  have hA : flowTriggerIssues (blocks.map eraseCondValues) (eraseCondValues lb) =
      flowTriggerIssues blocks lb := by
    rw [flowTriggerIssues, flowTriggerIssues, e1]
    rcases htf : lb.payload.triggerField with _ | tf
    · rfl
    · simp [hhb, flowTriggerMsg, e4]
  have hB : flowCondIssues (blocks.map eraseCondValues) (eraseCondValues lb) =
      flowCondIssues blocks lb := by
    rw [flowCondIssues, flowCondIssues, e3]
    rcases hcs : lb.payload.conditions with _ | cs
    · rfl
    · simp only [Option.map_some']
      rw [List.flatMap_map]
      apply List.flatMap_congr
      intro c _
      have ej : (eraseCondValue c).jumpTo = c.jumpTo := rfl
      rw [ej]
      rcases hj : c.jumpTo with _ | j
      · rfl
      · simp [hhb, flowJumpMsg, e4]
  have hC : flowDefaultIssues (blocks.map eraseCondValues) (eraseCondValues lb) =
      flowDefaultIssues blocks lb := by
    rw [flowDefaultIssues, flowDefaultIssues, e2]
    rcases hdj : lb.payload.defaultJumpTo with _ | d
    · rfl
    · simp [hhb, flowDefaultMsg, e4]
  rw [logicBlockIssues, logicBlockIssues, hA, hB, hC]

/-- Witness for C2 amended, at a concrete two-block input. -/
theorem c2_reachability_witness :
    (∀ u, u ∈ reachableUuids [exInputA, exInputB] ↔
      hasBlock [exInputA, exInputB] u = true ∧
        ReachableFrom [exInputA, exInputB] exInputA.uuid u) ∧
    unreachableWarnings [exInputA, exInputB] =
      [exInputA, exInputB].enum.filterMap (fun p =>
        if p.1 ≠ 0 ∧ ¬ ReachableFrom [exInputA, exInputB] exInputA.uuid p.2.uuid then
          some (unreachableMsg p.2)
        else none) :=
  c2_reachability [exInputA, exInputB] exInputA [exInputB] rfl

theorem refIssues_eraseValues (blocks : List Block) :
    refIssues (blocks.map eraseCondValues) = refIssues blocks := by
  rw [refIssues, refIssues, logicBlocksOf_map eraseCondValues (fun _ => rfl),
    List.flatMap_map]
  apply List.flatMap_congr
  intro lb _
  exact logicBlockIssues_eraseValues blocks lb

theorem reachableUuids_eraseValues (blocks : List Block) :
    reachableUuids (blocks.map eraseCondValues) = reachableUuids blocks := by
  rcases blocks with _ | ⟨b0, rest⟩
  · rfl
  · show traverseBlocks ((b0 :: rest).map eraseCondValues)
        (reachFuel ((b0 :: rest).map eraseCondValues)) (eraseCondValues b0).uuid [] =
      traverseBlocks (b0 :: rest) (reachFuel (b0 :: rest)) b0.uuid []
    have hf : reachFuel ((b0 :: rest).map eraseCondValues) = reachFuel (b0 :: rest) := by
      simp [reachFuel]
    rw [hf]
    exact (traverseBlocks_congr _ _ (succs_eraseValues (b0 :: rest))
      (hasBlock_map eraseCondValues (fun _ => rfl) (b0 :: rest)) _).2 b0.uuid []

theorem unreachableWarnings_eraseValues (blocks : List Block) :
    unreachableWarnings (blocks.map eraseCondValues) = unreachableWarnings blocks := by
  rw [unreachableWarnings, unreachableWarnings, reachableUuids_eraseValues,
    List.enum_map, List.filterMap_map]
  apply List.filterMap_congr
  intro p _
  rfl

theorem cycleWarnings_eraseValues (blocks : List Block) :
    cycleWarnings (blocks.map eraseCondValues) = cycleWarnings blocks := by
  have hcs : ∀ u, circSuccs (blocks.map eraseCondValues) u = circSuccs blocks u :=
    circSuccs_map eraseCondValues (fun _ => rfl) blockCircSuccs_eraseValues blocks
  have hfuel : circFuel (blocks.map eraseCondValues) = circFuel blocks := by
    rw [circFuel, circFuel, allCondTargets_map eraseCondValues blockAllTargets_eraseValues]
  have hcc : ∀ fuel u visited, checkCircular (blocks.map eraseCondValues) fuel u visited =
      checkCircular blocks fuel u visited :=
    fun fuel u visited => (checkCircular_congr _ _ hcs fuel).2 u visited
  rw [cycleWarnings, cycleWarnings, logicBlocksOf_map eraseCondValues (fun _ => rfl),
    List.filterMap_map]
  apply List.filterMap_congr
  intro lb _
  simp only [Function.comp, hfuel, hcc]
  rfl

/-- C6 corrected: a condition whose (truthy) jump target does not resolve
yields the dangling-jump ISSUE; and `validateFormLogicFlow` never reads any
condition's `value` — erasing every value leaves the whole report
unchanged, so a missing value yields no ISSUE. -/
theorem c6_referential_integrity (blocks : List Block) :
    (∀ (lb : Block) (cs : List LogicCond) (c : LogicCond) (j : String),
      lb ∈ logicBlocksOf blocks → lb.payload.conditions = some cs → c ∈ cs →
      c.jumpTo = some j → j ≠ "" → hasBlock blocks j = false →
      flowJumpMsg lb j ∈ (validateFormLogicFlow blocks).issues) ∧
    validateFormLogicFlow (blocks.map eraseCondValues) = validateFormLogicFlow blocks := by
  constructor
  · intro lb cs c j hlb hcs hc hj hne hhas
    show flowJumpMsg lb j ∈ refIssues blocks
    rw [refIssues]
    apply List.mem_flatMap.mpr
    refine ⟨lb, hlb, ?_⟩
    rw [logicBlockIssues]
    apply List.mem_append_left
    apply List.mem_append_right
    rw [flowCondIssues, hcs]
    apply List.mem_flatMap.mpr
    refine ⟨c, hc, ?_⟩
    simp [hj, hne, hhas]
  · rw [validateFormLogicFlow, validateFormLogicFlow, refIssues_eraseValues,
      unreachableWarnings_eraseValues, cycleWarnings_eraseValues,
      reachableUuids_eraseValues]
    have h1 : (blocks.map eraseCondValues).length = blocks.length := List.length_map _ _
    have h2 : (inputBlocksOf (blocks.map eraseCondValues)).length =
        (inputBlocksOf blocks).length := by
      rw [inputBlocksOf, inputBlocksOf, List.filter_map, List.length_map]
      congr 1
    have h3 : (logicBlocksOf (blocks.map eraseCondValues)).length =
        (logicBlocksOf blocks).length := by
      rw [logicBlocksOf_map eraseCondValues (fun _ => rfl), List.length_map]
    rw [h1, h2, h3]

/-- Witness for C6 at a concrete dangling-jump logic block. -/
theorem c6_referential_integrity_witness :
    flowJumpMsg exDanglingLogic "missing" ∈
      (validateFormLogicFlow [exDanglingLogic]).issues ∧
    validateFormLogicFlow ([exDanglingLogic].map eraseCondValues) =
      validateFormLogicFlow [exDanglingLogic] :=
  ⟨(c6_referential_integrity [exDanglingLogic]).1 exDanglingLogic [exDanglingCond]
      exDanglingCond "missing" (by decide) rfl (by decide) rfl (by decide) (by decide),
    (c6_referential_integrity [exDanglingLogic]).2⟩

end Tally
